import Mathlib

/-!
Verification of the sisukas content-addressed filter storage engine
(`filters-api/storage/file_storage.py`, `filters-api/routers/filters.py`,
`filters-api/models/filter_models.py`) as a shallow embedding in Lean 4.

Modelling conventions:
* A Python `str` is a sequence of Unicode code points, embedded as `List Nat`
  (`PyStr`).  `bytes` values are likewise `List Nat` with entries < 256.
* A JSON-serializable Python value (`dict`/`list`/`str`/`int`/`bool`/`None`)
  is embedded as the inductive `Json`.  JSON numbers are restricted to
  integers: the repository's filter documents contain no floats, and Python
  floats are outside the scope of the embedding.  A Python `dict` is an
  insertion-ordered association list; well-formed values (`wfJ`) have
  distinct keys at every object node and strings made of Unicode scalar
  values, exactly the values Python's `json` module can produce and encode.
* `json.dumps` is embedded as `dumps`, covering the separator family the
  repository uses: item separator `","` / `", "` and key separator `":"` /
  `": "` are passed as the (possibly empty) whitespace lists that follow the
  comma and the colon.  `ensure_ascii=True` escaping (the default, used by
  both call sites in `filters-api`) is modelled in full, including `\uXXXX`
  escapes and surrogate pairs.  `sort_keys=True` sorts each object's items
  by key at every level; this is embedded by serializing the recursively
  key-sorted value (`sortJson`).
* `json.loads` is embedded as `loads`: UTF-8 decoding followed by a
  recursive-descent JSON parser (`parseVal`, structural on a fuel counter).
  Python's decoder collapses duplicate object keys (last wins); the embedded
  parser keeps the member sequence, which is equivalent on the
  duplicate-free documents the engine stores.
* Google Cloud Storage is embedded as `GcsBucket`, an association list from
  blob names to `Blob` (content bytes plus the optional `sha256` metadata
  entry).  `upload_from_string(..., if_generation_match=0)` creates the blob
  only if the name is absent and otherwise raises `PreconditionFailed`,
  which `save_filter_file` swallows.  The `@lru_cache(maxsize=256)` on
  `load_filter_file` is embedded as `LoadCache`, a most-recent-first
  association list bounded at 256 entries.
-/

/-- A Python string: a sequence of Unicode code points. -/
abbrev PyStr := List Nat

/-- A JSON-serializable Python value (numbers restricted to integers). -/
inductive Json where
  | null : Json
  | bool (b : Bool) : Json
  | num (n : Int) : Json
  | str (s : PyStr) : Json
  | arr (xs : List Json) : Json
  | obj (entries : List (PyStr × Json)) : Json

/-- A Unicode scalar value: a code point that is not a surrogate.  Python's
`json.dumps(...).encode()` round-trips exactly on strings of scalar values. -/
def scalarCP (n : Nat) : Bool :=
  n < 1114112 && !(55296 ≤ n && n < 57344)

/-- The keys of an association list. -/
def keysOf (es : List (PyStr × Json)) : List PyStr := es.map Prod.fst

/-- Distinctness of a key list, as a Boolean. -/
def wfKeysDistinct : List PyStr → Bool
  | [] => true
  | k :: ks => !(ks.contains k) && wfKeysDistinct ks

mutual
/-- Well-formed documents: every string consists of Unicode scalar values and
every object has pairwise-distinct keys (Python dicts cannot repeat a key). -/
def wfJ : Json → Bool
  | .null => true
  | .bool _ => true
  | .num _ => true
  | .str s => s.all scalarCP
  | .arr xs => wfElems xs
  | .obj es => wfKeysDistinct (keysOf es) && wfEntries es
def wfElems : List Json → Bool
  | [] => true
  | x :: xs => wfJ x && wfElems xs
def wfEntries : List (PyStr × Json) → Bool
  | [] => true
  | (k, v) :: es => k.all scalarCP && wfJ v && wfEntries es
end

/-- Lexicographic code-point comparison of Python strings (`s1 <= s2`),
the order `sort_keys=True` sorts object keys by. -/
def pyStrLe : PyStr → PyStr → Bool
  | [], _ => true
  | _ :: _, [] => false
  | a :: as, b :: bs => if a < b then true else if b < a then false else pyStrLe as bs

/-- The ordering on object items used by `sort_keys=True`: compare keys. -/
def entryLe (p q : PyStr × Json) : Prop := pyStrLe p.1 q.1 = true

instance : DecidableRel entryLe := fun p q => by
  unfold entryLe; infer_instance

mutual
/-- Recursively sort every object's items by key (the normal form
`json.dumps(..., sort_keys=True)` serializes). -/
def sortJson : Json → Json
  | .null => .null
  | .bool b => .bool b
  | .num n => .num n
  | .str s => .str s
  | .arr xs => .arr (sortElems xs)
  | .obj es => .obj (List.insertionSort entryLe (sortEntries es))
def sortElems : List Json → List Json
  | [] => []
  | x :: xs => sortJson x :: sortElems xs
def sortEntries : List (PyStr × Json) → List (PyStr × Json)
  | [] => []
  | (k, v) :: es => (k, sortJson v) :: sortEntries es
end

mutual
/-- Python `==` on JSON-serializable values: scalars by value, lists
pointwise, dicts by key lookup (same size, every key of the left dict mapped
to an equal value in the right one). -/
def jeqb : Json → Json → Bool
  | .null, .null => true
  | .bool a, .bool b => a == b
  | .num a, .num b => a == b
  | .str a, .str b => a == b
  | .arr xs, .arr ys => jeqbElems xs ys
  | .obj es, .obj fs => es.length == fs.length && jeqbEntries es fs
  | _, _ => false
def jeqbElems : List Json → List Json → Bool
  | [], [] => true
  | x :: xs, y :: ys => jeqb x y && jeqbElems xs ys
  | _, _ => false
def jeqbEntries : List (PyStr × Json) → List (PyStr × Json) → Bool
  | [], _ => true
  | (k, v) :: es, fs =>
    (match fs.lookup k with
     | some v' => jeqb v v'
     | none => false) && jeqbEntries es fs
end

/-- One hexadecimal digit character (lowercase), for `d < 16`. -/
def hexDigitChar (d : Nat) : Nat := if d < 10 then 48 + d else 87 + d

/-- Four-digit lowercase hexadecimal rendering of `n < 0x10000`,
as used by `\uXXXX` escapes. -/
def hex4 (n : Nat) : List Nat :=
  [hexDigitChar (n / 4096 % 16), hexDigitChar (n / 256 % 16),
   hexDigitChar (n / 16 % 16), hexDigitChar (n % 16)]

/-- `json.dumps` escaping of one code point with `ensure_ascii=True`
(CPython's `encode_basestring_ascii`): the named escapes, then `\uXXXX`
for anything outside printable ASCII, with surrogate pairs beyond U+FFFF. -/
def escapeChar (c : Nat) : List Nat :=
  if c = 34 then [92, 34]
  else if c = 92 then [92, 92]
  else if c = 8 then [92, 98]
  else if c = 9 then [92, 116]
  else if c = 10 then [92, 110]
  else if c = 12 then [92, 102]
  else if c = 13 then [92, 114]
  else if 32 ≤ c && c ≤ 126 then [c]
  else if c < 65536 then 92 :: 117 :: hex4 c
  else
    (92 :: 117 :: hex4 (55296 + (c - 65536) / 1024))
      ++ (92 :: 117 :: hex4 (56320 + (c - 65536) % 1024))

/-- A serialized JSON string: quote, escaped body, quote. -/
def quoteStr (s : PyStr) : List Nat := 34 :: (s.flatMap escapeChar ++ [34])

/-- Decimal digit characters of `n`, most significant first, in front of
`acc`, structural on a fuel counter (any fuel of at least `n` is enough). -/
def natDigsF : Nat → Nat → List Nat → List Nat
  | 0, n, acc => (48 + n % 10) :: acc
  | f + 1, n, acc =>
    if n < 10 then (48 + n % 10) :: acc
    else natDigsF f (n / 10) ((48 + n % 10) :: acc)

/-- Decimal digit characters of `n`, most significant first, in front of
`acc`. -/
def natDigs (n : Nat) (acc : List Nat) : List Nat := natDigsF n n acc

/-- `str(i)` for a Python int: optional minus sign, then decimal digits. -/
def intChars (i : Int) : List Nat :=
  (if i < 0 then [45] else []) ++ natDigs i.natAbs []

mutual
/-- `json.dumps` with `ensure_ascii=True` and `indent=None`, for the
separator family the repository uses: the item separator is a comma
followed by the whitespace `ws1`, the key separator a colon followed by
`ws2` (`json.dumps(data)` has `ws1 = ws2 = [32]`; the canonical
`separators=(",", ":")` has `ws1 = ws2 = []`).  `sort_keys=True` is
`dumps ws1 ws2 (sortJson d)`. -/
def dumps (ws1 ws2 : List Nat) : Json → List Nat
  | .null => [110, 117, 108, 108]
  | .bool true => [116, 114, 117, 101]
  | .bool false => [102, 97, 108, 115, 101]
  | .num i => intChars i
  | .str s => quoteStr s
  | .arr [] => [91, 93]
  | .arr (x :: xs) => 91 :: ((dumps ws1 ws2 x ++ dumpsElems ws1 ws2 xs) ++ [93])
  | .obj [] => [123, 125]
  | .obj (e :: es) => 123 :: ((dumpsEntry ws1 ws2 e ++ dumpsEntries ws1 ws2 es) ++ [125])
def dumpsElems (ws1 ws2 : List Nat) : List Json → List Nat
  | [] => []
  | x :: xs => (44 :: ws1 ++ dumps ws1 ws2 x) ++ dumpsElems ws1 ws2 xs
def dumpsEntry (ws1 ws2 : List Nat) : PyStr × Json → List Nat
  | (k, v) => quoteStr k ++ (58 :: ws2 ++ dumps ws1 ws2 v)
def dumpsEntries (ws1 ws2 : List Nat) : List (PyStr × Json) → List Nat
  | [] => []
  | e :: es => (44 :: ws1 ++ dumpsEntry ws1 ws2 e) ++ dumpsEntries ws1 ws2 es
end

/-- The canonical serialization used for hashing:
`json.dumps(content, separators=(",", ":"), sort_keys=True)`. -/
def dumpsCanonical (d : Json) : PyStr := dumps [] [] (sortJson d)

/-- The serialization stored in GCS: `json.dumps(data)` (default separators
`(", ", ": ")`, no key sorting). -/
def dumpsDefault (d : Json) : PyStr := dumps [32] [32] d

/-- UTF-8 encoding of one Unicode scalar value (`str.encode()` per code
point; Python would reject surrogates, which `wfJ` strings exclude). -/
def utf8Char (c : Nat) : List Nat :=
  if c < 128 then [c]
  else if c < 2048 then [192 + c / 64, 128 + c % 64]
  else if c < 65536 then [224 + c / 4096, 128 + c / 64 % 64, 128 + c % 64]
  else [240 + c / 262144, 128 + c / 4096 % 64, 128 + c / 64 % 64, 128 + c % 64]

/-- `str.encode()`: UTF-8 encoding of a Python string. -/
def utf8Encode (s : PyStr) : List Nat := s.flatMap utf8Char

/-- Strict UTF-8 decoding, structural on a fuel counter (each step consumes
at least one byte, so any fuel of at least the input length is enough). -/
def utf8DecodeF : Nat → List Nat → Option PyStr
  | _, [] => some []
  | 0, _ :: _ => none
  | f + 1, b :: bs =>
    if b < 128 then (utf8DecodeF f bs).map (b :: ·)
    else if 194 ≤ b && b < 224 then
      match bs with
      | b2 :: bs2 =>
        if 128 ≤ b2 && b2 < 192 then
          (utf8DecodeF f bs2).map (((b - 192) * 64 + (b2 - 128)) :: ·)
        else none
      | _ => none
    else if 224 ≤ b && b < 240 then
      match bs with
      | b2 :: b3 :: bs3 =>
        if 128 ≤ b2 && b2 < 192 && (128 ≤ b3 && b3 < 192) then
          let c := (b - 224) * 4096 + (b2 - 128) * 64 + (b3 - 128)
          if 2048 ≤ c && scalarCP c then (utf8DecodeF f bs3).map (c :: ·) else none
        else none
      | _ => none
    else if 240 ≤ b && b < 245 then
      match bs with
      | b2 :: b3 :: b4 :: bs4 =>
        if 128 ≤ b2 && b2 < 192 && (128 ≤ b3 && b3 < 192) && (128 ≤ b4 && b4 < 192) then
          let c := (b - 240) * 262144 + (b2 - 128) * 4096 + (b3 - 128) * 64 + (b4 - 128)
          if 65536 ≤ c && c < 1114112 then (utf8DecodeF f bs4).map (c :: ·) else none
        else none
      | _ => none
    else none

/-- Strict UTF-8 decoding (`bytes.decode()`), rejecting truncated sequences,
bad continuation bytes, overlong forms, surrogates and values past U+10FFFF. -/
def utf8Decode (bytes : List Nat) : Option PyStr := utf8DecodeF bytes.length bytes

/-- JSON whitespace (` `, TAB, LF, CR). -/
def isJsonWs (c : Nat) : Bool := c == 32 || c == 9 || c == 10 || c == 13

/-- Drop leading JSON whitespace. -/
def skipWs : List Nat → List Nat
  | c :: cs => if isJsonWs c then skipWs cs else c :: cs
  | [] => []

/-- ASCII decimal digit. -/
def isDigitC (c : Nat) : Bool := 48 ≤ c && c ≤ 57

/-- Split off the leading run of decimal digits. -/
def takeDigs : List Nat → List Nat × List Nat
  | c :: cs =>
    if isDigitC c then
      let (ds, r) := takeDigs cs
      (c :: ds, r)
    else ([], c :: cs)
  | [] => ([], [])

/-- The number denoted by a run of decimal digit characters. -/
def digsToNat (ds : List Nat) : Nat := ds.foldl (fun a c => a * 10 + (c - 48)) 0

/-- The value of one hexadecimal digit character (either case). -/
def hexValC (c : Nat) : Option Nat :=
  if 48 ≤ c && c ≤ 57 then some (c - 48)
  else if 97 ≤ c && c ≤ 102 then some (c - 87)
  else if 65 ≤ c && c ≤ 70 then some (c - 55)
  else none

/-- The value of a four-hex-digit escape body. -/
def hex4Val (a b c d : Nat) : Option Nat := do
  let va ← hexValC a
  let vb ← hexValC b
  let vc ← hexValC c
  let vd ← hexValC d
  return ((va * 16 + vb) * 16 + vc) * 16 + vd

/-- The named single-character escapes of the JSON grammar. -/
def unescC : Nat → Option Nat
  | 34 => some 34
  | 92 => some 92
  | 47 => some 47
  | 98 => some 8
  | 102 => some 12
  | 110 => some 10
  | 114 => some 13
  | 116 => some 9
  | _ => none

/-- Parse a JSON string body after the opening quote (CPython
`py_scanstring`, strict mode): named escapes, `\uXXXX` with surrogate-pair
recombination, raw characters of at least U+0020, terminated by `"`. -/
def parseStrBody : Nat → PyStr → List Nat → Option (PyStr × List Nat)
  | _, acc, 34 :: rest => some (acc.reverse, rest)
  | 0, _, _ => none
  | f + 1, acc, 92 :: 117 :: a :: b :: c :: d :: rest =>
    match hex4Val a b c d with
    | none => none
    | some n =>
      if 55296 ≤ n && n < 56320 then
        if rest.take 2 = [92, 117] then
          if rest.length < 6 then none
          else
            match hex4Val (rest.getD 2 0) (rest.getD 3 0) (rest.getD 4 0) (rest.getD 5 0) with
            | none => none
            | some m =>
              if 56320 ≤ m && m < 57344 then
                parseStrBody f ((65536 + (n - 55296) * 1024 + (m - 56320)) :: acc)
                  (rest.drop 6)
              else parseStrBody f (n :: acc) rest
        else parseStrBody f (n :: acc) rest
      else parseStrBody f (n :: acc) rest
  | f + 1, acc, 92 :: e :: rest =>
    match unescC e with
    | some c => parseStrBody f (c :: acc) rest
    | none => none
  | f + 1, acc, c :: rest => if c < 32 then none else parseStrBody f (c :: acc) rest
  | _, _, [] => none

/-- Parse a JSON string body after the opening quote: fuel instantiated with
the input length (each scanning step consumes at least one character). -/
def parseStr (cs : List Nat) : Option (PyStr × List Nat) :=
  parseStrBody cs.length [] cs

/-- Parse a JSON integer (the number grammar restricted to the integers the
embedded `dumps` emits; a fraction or exponent is out of the model). -/
def parseNum (cs : List Nat) : Option (Int × List Nat) :=
  let neg := cs.take 1 = [45]
  let cs1 := if neg then cs.drop 1 else cs
  let (ds, cs2) := takeDigs cs1
  if ds.isEmpty then none
  else if cs2.take 1 = [46] || cs2.take 1 = [101] || cs2.take 1 = [69] then none
  else some ((if neg then -(digsToNat ds : Int) else (digsToNat ds : Int)), cs2)

mutual
/-- Parse one JSON value, skipping leading whitespace; structural on `fuel`. -/
def parseVal (fuel : Nat) (cs : List Nat) : Option (Json × List Nat) :=
  match fuel with
  | 0 => none
  | fuel + 1 =>
    match skipWs cs with
    | 110 :: 117 :: 108 :: 108 :: r => some (.null, r)
    | 116 :: 114 :: 117 :: 101 :: r => some (.bool true, r)
    | 102 :: 97 :: 108 :: 115 :: 101 :: r => some (.bool false, r)
    | 34 :: r =>
      match parseStr r with
      | some (s, r') => some (.str s, r')
      | none => none
    | 91 :: r =>
      (match skipWs r with
       | 93 :: r' => some (.arr [], r')
       | _ =>
         match parseElems fuel r with
         | some (xs, r') => some (.arr xs, r')
         | none => none)
    | 123 :: r =>
      (match skipWs r with
       | 125 :: r' => some (.obj [], r')
       | _ =>
         match parseEntries fuel r with
         | some (es, r') => some (.obj es, r')
         | none => none)
    | c :: r =>
      if c == 45 || isDigitC c then
        match parseNum (c :: r) with
        | some (n, r') => some (.num n, r')
        | none => none
      else none
    | [] => none
/-- Parse one or more comma-separated array elements up to the closing `]`. -/
def parseElems (fuel : Nat) (cs : List Nat) : Option (List Json × List Nat) :=
  match fuel with
  | 0 => none
  | fuel + 1 =>
    match parseVal fuel cs with
    | none => none
    | some (v, r) =>
      match skipWs r with
      | 44 :: r' =>
        (match parseElems fuel r' with
         | some (vs, r'') => some (v :: vs, r'')
         | none => none)
      | 93 :: r' => some ([v], r')
      | _ => none
/-- Parse one or more comma-separated object members up to the closing brace. -/
def parseEntries (fuel : Nat) (cs : List Nat) : Option (List (PyStr × Json) × List Nat) :=
  match fuel with
  | 0 => none
  | fuel + 1 =>
    match skipWs cs with
    | 34 :: r =>
      (match parseStr r with
       | none => none
       | some (k, r1) =>
         match skipWs r1 with
         | 58 :: r2 =>
           (match parseVal fuel r2 with
            | none => none
            | some (v, r3) =>
              match skipWs r3 with
              | 44 :: r4 =>
                (match parseEntries fuel r4 with
                 | some (es, r5) => some ((k, v) :: es, r5)
                 | none => none)
              | 125 :: r4 => some ([(k, v)], r4)
              | _ => none)
         | _ => none)
    | _ => none
end

/-- Parse a complete JSON text: one value, then only trailing whitespace. -/
def parseTop (s : PyStr) : Option Json :=
  match parseVal (s.length + 1) s with
  | some (v, r) => if (skipWs r).isEmpty then some v else none
  | none => none

/-- `json.loads` on a `bytes` payload: strict UTF-8 decoding, then parsing. -/
def loads (bytes : List Nat) : Option Json :=
  match utf8Decode bytes with
  | some s => parseTop s
  | none => none

/-- Truncation to a 32-bit word. -/
def w32 (n : Nat) : Nat := n % 4294967296

/-- 32-bit right rotation of a word. -/
def rotr32 (r x : Nat) : Nat := w32 (x / 2 ^ r + x % 2 ^ r * 2 ^ (32 - r))

/-- SHA-256 `Ch(x, y, z)`. -/
def shaCh (x y z : Nat) : Nat := (x &&& y) ^^^ ((4294967295 - w32 x) &&& z)

/-- SHA-256 `Maj(x, y, z)`. -/
def shaMaj (x y z : Nat) : Nat := (x &&& y) ^^^ (x &&& z) ^^^ (y &&& z)

/-- SHA-256 lowercase sigma-0. -/
def shaS0 (x : Nat) : Nat := rotr32 7 x ^^^ rotr32 18 x ^^^ x / 2 ^ 3

/-- SHA-256 lowercase sigma-1. -/
def shaS1 (x : Nat) : Nat := rotr32 17 x ^^^ rotr32 19 x ^^^ x / 2 ^ 10

/-- SHA-256 uppercase Sigma-0. -/
def shaB0 (x : Nat) : Nat := rotr32 2 x ^^^ rotr32 13 x ^^^ rotr32 22 x

/-- SHA-256 uppercase Sigma-1. -/
def shaB1 (x : Nat) : Nat := rotr32 6 x ^^^ rotr32 11 x ^^^ rotr32 25 x

/-- The SHA-256 round constants. -/
def shaK : List Nat :=
  [1116352408, 1899447441, 3049323471, 3921009573, 961987163, 1508970993,
   2453635748, 2870763221, 3624381080, 310598401, 607225278, 1426881987,
   1925078388, 2162078206, 2614888103, 3248222580, 3835390401, 4022224774,
   264347078, 604807628, 770255983, 1249150122, 1555081692, 1996064986,
   2554220882, 2821834349, 2952996808, 3210313671, 3336571891, 3584528711,
   113926993, 338241895, 666307205, 773529912, 1294757372, 1396182291,
   1695183700, 1986661051, 2177026350, 2456956037, 2730485921, 2820302411,
   3259730800, 3345764771, 3516065817, 3600352804, 4094571909, 275423344,
   430227734, 506948616, 659060556, 883997877, 958139571, 1322822218,
   1537002063, 1747873779, 1955562222, 2024104815, 2227730452, 2361852424,
   2428436474, 2756734187, 3204031479, 3329325298]

/-- The SHA-256 initial hash state. -/
def shaH0 : List Nat :=
  [1779033703, 3144134277, 1013904242, 2773480762,
   1359893119, 2600822924, 528734635, 1541459225]

/-- Big-endian eight-byte rendering of a length-in-bits counter. -/
def be64 (n : Nat) : List Nat :=
  [n / 2 ^ 56 % 256, n / 2 ^ 48 % 256, n / 2 ^ 40 % 256, n / 2 ^ 32 % 256,
   n / 2 ^ 24 % 256, n / 2 ^ 16 % 256, n / 2 ^ 8 % 256, n % 256]

/-- SHA-256 padding: append `0x80`, zero bytes to 56 mod 64, then the
message bit length. -/
def shaPad (msg : List Nat) : List Nat :=
  msg ++ 128 :: List.replicate ((119 - msg.length % 64) % 64) 0
      ++ be64 (8 * msg.length)

/-- Big-endian grouping of bytes into 32-bit words. -/
def bytesToWords : List Nat → List Nat
  | b0 :: b1 :: b2 :: b3 :: rest =>
    (((b0 * 256 + b1) * 256 + b2) * 256 + b3) :: bytesToWords rest
  | _ => []

/-- Extend a message-schedule word list by `n` further words. -/
def shaExtend (w : List Nat) : Nat → List Nat
  | 0 => w
  | n + 1 =>
    shaExtend
      (w ++ [w32 (shaS1 (w.getD (w.length - 2) 0) + w.getD (w.length - 7) 0
                 + shaS0 (w.getD (w.length - 15) 0) + w.getD (w.length - 16) 0)]) n

/-- One SHA-256 compression round. -/
def shaRound (st : List Nat) (kw : Nat × Nat) : List Nat :=
  match st with
  | [a, b, c, d, e, f, g, h] =>
    let t1 := w32 (h + shaB1 e + shaCh e f g + kw.1 + kw.2)
    let t2 := w32 (shaB0 a + shaMaj a b c)
    [w32 (t1 + t2), a, b, c, w32 (d + t1), e, f, g]
  | _ => st

/-- Process one 64-byte chunk into the running hash state. -/
def shaChunk (h : List Nat) (chunk : List Nat) : List Nat :=
  let ws := shaExtend (bytesToWords chunk) 48
  let st := (shaK.zip ws).foldl shaRound h
  h.zipWith (fun x y => w32 (x + y)) st

/-- Split a byte list into 64-byte chunks, structural on a fuel counter
(each step consumes 64 bytes, so fuel at least the length is enough). -/
def chunks64F : Nat → List Nat → List (List Nat)
  | _, [] => []
  | 0, _ :: _ => []
  | f + 1, b :: t => (b :: t).take 64 :: chunks64F f ((b :: t).drop 64)

/-- Split a byte list into 64-byte chunks. -/
def chunks64 (l : List Nat) : List (List Nat) := chunks64F l.length l

/-- `hashlib.sha256(msg).digest()` as eight 32-bit words. -/
def sha256words (msg : List Nat) : List Nat :=
  (chunks64 (shaPad msg)).foldl shaChunk shaH0

/-- Eight lowercase hexadecimal characters of one 32-bit word. -/
def wordHex8 (w : Nat) : List Nat := hex4 (w / 65536) ++ hex4 (w % 65536)

/-- `hashlib.sha256(msg).hexdigest()`: 64 lowercase hex characters. -/
def sha256hex (msg : List Nat) : PyStr := (sha256words msg).flatMap wordHex8

/-- Code points of a Lean string literal (for fixed Python string constants). -/
def pyOfString (s : String) : PyStr := s.toList.map Char.toNat

/-- A stored GCS blob: its content bytes and the optional `sha256` entry of
its metadata dictionary. -/
structure Blob where
  content : List Nat
  metadata : Option PyStr
deriving DecidableEq

/-- The GCS bucket state: an association of blob names to blobs. -/
structure GcsBucket where
  blobs : List (PyStr × Blob)
deriving DecidableEq

/-- `FILTER_SUFFIX = ".json"`. -/
def FILTER_SUFFIX : PyStr := [46, 106, 115, 111, 110]

/-- `_blob_name`: the standardized blob name for a hash ID. -/
def blobName (hash_id : PyStr) : PyStr := hash_id ++ FILTER_SUFFIX

/-- Look a blob up by name (`blob.exists()` / `blob.download_as_bytes()`). -/
def bucketGet (bucket : GcsBucket) (name : PyStr) : Option Blob :=
  bucket.blobs.lookup name

/-- Create a blob (the successful `upload_from_string` with
`if_generation_match=0`). -/
def bucketCreate (bucket : GcsBucket) (name : PyStr) (content : List Nat)
    (meta : Option PyStr) : GcsBucket :=
  ⟨(name, ⟨content, meta⟩) :: bucket.blobs⟩

/-- Remove a blob by name (`blob.delete()`). -/
def bucketRemove (bucket : GcsBucket) (name : PyStr) : GcsBucket :=
  ⟨bucket.blobs.filter (fun p => p.1 != name)⟩

/-- `save_filter_file(full_sha, k, data)`: upload the JSON serialization of
`data` under `full_sha[:k] + ".json"` with metadata `{"sha256": full_sha}`,
with the `if_generation_match=0` precondition; a `PreconditionFailed` (the
blob already exists, a concurrent writer won) is logged and swallowed. -/
def save_filter_file (bucket : GcsBucket) (full_sha : PyStr) (k : Nat)
    (data : Json) : GcsBucket :=
  let hash_id := full_sha.take k
  match bucketGet bucket (blobName hash_id) with
  | some _ => bucket
  | none =>
    bucketCreate bucket (blobName hash_id) (utf8Encode (dumpsDefault data))
      (some full_sha)

/-- The in-process read cache `@lru_cache(maxsize=256)` sitting on
`load_filter_file`, most recently used first. -/
structure LoadCache where
  entries : List (PyStr × Option Json)

/-- The empty cache (process start). -/
def emptyCache : LoadCache := ⟨[]⟩

/-- Cache lookup by argument. -/
def cacheFind (cache : LoadCache) (hash_id : PyStr) : Option (Option Json) :=
  cache.entries.lookup hash_id

/-- On a cache hit the entry moves to the most-recently-used position. -/
def cacheHit (cache : LoadCache) (hash_id : PyStr) (v : Option Json) : LoadCache :=
  ⟨(hash_id, v) :: cache.entries.filter (fun p => p.1 != hash_id)⟩

/-- On a miss the computed value is inserted, evicting past 256 entries. -/
def cacheInsert (cache : LoadCache) (hash_id : PyStr) (v : Option Json) : LoadCache :=
  ⟨((hash_id, v) :: cache.entries).take 256⟩

/-- `load_filter_file(hash_id)` under its `lru_cache`: a cached result
(including a cached `None`) is returned without touching the bucket; on a
miss the blob is downloaded — absent: `None` (`NotFound` logged), present:
`json.loads` of its bytes — and the result is cached.  The outer `none`
marks an escaping `json.loads` exception, which the cache does not store. -/
def load_filter_file (bucket : GcsBucket) (cache : LoadCache) (hash_id : PyStr) :
    Option (Option Json) × LoadCache :=
  match cacheFind cache hash_id with
  | some v => (some v, cacheHit cache hash_id v)
  | none =>
    match bucketGet bucket (blobName hash_id) with
    | none => (some none, cacheInsert cache hash_id none)
    | some blob =>
      match loads blob.content with
      | some d => (some (some d), cacheInsert cache hash_id (some d))
      | none => (none, cache)

/-- `delete_filter_file(hash_id)`: `False` if the blob does not exist,
otherwise delete it and return `True`.  The read cache is not touched. -/
def delete_filter_file (bucket : GcsBucket) (hash_id : PyStr) : Bool × GcsBucket :=
  match bucketGet bucket (blobName hash_id) with
  | none => (false, bucket)
  | some _ => (true, bucketRemove bucket (blobName hash_id))

/-- The `RuntimeError` message raised when the widening loop passes
`max_length`. -/
def hashExhaustMsg : PyStr :=
  pyOfString "Hash collision could not be resolved within max_length"

/-- The `while k <= max_length` loop of `generate_unique_hash`, structural
on the remaining iteration count (`fuel = max_length + 1 - k` at entry):
candidate `full_hash[:k]` absent — return `(full_hash, k, True)`; present
with metadata `sha256` equal to `full_hash` — return `(full_hash, k,
False)`; otherwise a truncation collision: extend to `k + 1`.  Exhausting
the fuel is exactly `k > max_length`: `RuntimeError`. -/
def genLoopF (bucket : GcsBucket) (full_hash : PyStr) :
    Nat → Nat → Except PyStr (PyStr × Nat × Bool)
  | 0, _ => .error hashExhaustMsg
  | f + 1, k =>
    let candidate := full_hash.take k
    match bucketGet bucket (blobName candidate) with
    | none => .ok (full_hash, k, true)
    | some blob =>
      if blob.metadata = some full_hash then .ok (full_hash, k, false)
      else genLoopF bucket full_hash f (k + 1)

/-- `generate_unique_hash(content, hash_func, min_length, max_length)`:
canonical JSON of `content`, full digest via `hash_func` (a parameter of the
source function; the default is SHA-256, `sha256Digest` below), then the
widening loop from `k = min_length`. -/
def generate_unique_hash (bucket : GcsBucket) (content : Json)
    (hashFn : List Nat → PyStr) (min_length max_length : Nat) :
    Except PyStr (PyStr × Nat × Bool) :=
  let content_json := dumpsCanonical content
  let full_hash := hashFn (utf8Encode content_json)
  genLoopF bucket full_hash (max_length + 1 - min_length) min_length

/-- The default `hash_func`: `hashlib.sha256(bytes).hexdigest()`. -/
def sha256Digest (bytes : List Nat) : PyStr := sha256hex bytes

/-- `HASH_PATTERN = r"^[a-f0-9]{16,64}$"` on one character. -/
def isLowerHex (c : Nat) : Bool := (48 ≤ c && c ≤ 57) || (97 ≤ c && c ≤ 102)

/-- `re.fullmatch(HASH_PATTERN, hash_id)`: 16 to 64 characters, all
lowercase hexadecimal. -/
def matchesHashPattern (s : PyStr) : Bool :=
  16 ≤ s.length && s.length ≤ 64 && s.all isLowerHex

/-- `validate_hash_id`: the hash ID when it matches `HASH_PATTERN`, `none`
for the `HTTPException(422, "Invalid hash format")` rejection. -/
def validate_hash_id (hash_id : PyStr) : Option PyStr :=
  if matchesHashPattern hash_id then some hash_id else none

/-- `POST /api/filters` (`save_filter`): allocate a hash ID for the payload
and upload it only when new; the allocator's `RuntimeError` escapes. -/
def save_filter (bucket : GcsBucket) (query : Json)
    (hashFn : List Nat → PyStr) : Except PyStr (PyStr × GcsBucket) :=
  match generate_unique_hash bucket query hashFn 16 64 with
  | .error e => .error e
  | .ok (full_hash, k, to_create) =>
    let hash_id := full_hash.take k
    if to_create then .ok (hash_id, save_filter_file bucket full_hash k query)
    else .ok (hash_id, bucket)

/-- Outcome of `GET /api/filters/{hash_id}` as seen by the client. -/
inductive ApiLoad where
  | ok (data : Json)
  | notFound
  | invalidHash
  | internalError

/-- Python truthiness of a parsed JSON value, for the endpoint's
`if not data:` test: `None`, `False`, `0`, `""`, `[]` and `{}` are falsy. -/
def pyFalsy : Json → Bool
  | .null => true
  | .bool b => !b
  | .num n => n == 0
  | .str s => s.isEmpty
  | .arr xs => xs.isEmpty
  | .obj es => es.isEmpty

/-- `GET /api/filters/{hash_id}` (`load_filter`): path validation via
`validate_hash_id` (HTTP 422 before any storage access), then
`load_filter_file`; an escaping exception maps to HTTP 500, and the
`if not data:` check maps HTTP 404 not only to a `None` result but to any
falsy document — `json.loads(b"null")` is `None`, and `False`, `0`, `""`,
`[]`, `{}` all fail the check too. -/
def load_filter (bucket : GcsBucket) (cache : LoadCache) (hash_id : PyStr) :
    ApiLoad × LoadCache :=
  match validate_hash_id hash_id with
  | none => (.invalidHash, cache)
  | some _ =>
    match load_filter_file bucket cache hash_id with
    | (none, c') => (.internalError, c')
    | (some none, c') => (.notFound, c')
    | (some (some d), c') =>
      if pyFalsy d then (.notFound, c') else (.ok d, c')

/-- Outcome of `DELETE /api/filters/{hash_id}` as seen by the client. -/
inductive ApiDelete where
  | deleted
  | notFound
  | invalidHash
deriving DecidableEq

/-- `DELETE /api/filters/{hash_id}` (`delete_filter`): path validation via
`validate_hash_id` (HTTP 422 before any storage access), then
`delete_filter_file`; `False` maps to HTTP 404. -/
def delete_filter (bucket : GcsBucket) (hash_id : PyStr) : ApiDelete × GcsBucket :=
  match validate_hash_id hash_id with
  | none => (.invalidHash, bucket)
  | some _ =>
    match delete_filter_file bucket hash_id with
    | (false, b') => (.notFound, b')
    | (true, b') => (.deleted, b')

/-- Whether `pat` occurs contiguously inside `l` (used to ask whether an
error message mentions a candidate prefix). -/
def containsSeq (pat : List Nat) : List Nat → Bool
  | [] => pat.isEmpty
  | c :: rest => ((c :: rest).take pat.length == pat) || containsSeq pat rest

/-- A remainder that cannot extend a serialized integer: empty or starting
with a character that is neither a digit nor `.`, `e`, `E`. -/
def numStop : List Nat → Bool
  | [] => true
  | c :: _ => !(isDigitC c || c == 46 || c == 101 || c == 69)

/-- The candidate of length `j` is occupied by a blob whose stored digest is
not `full` (a truncation collision at length `j`). -/
def occNonMatch (bucket : GcsBucket) (full : PyStr) (j : Nat) : Bool :=
  match bucketGet bucket (blobName (full.take j)) with
  | some blob => blob.metadata != some full
  | none => false

/-! ### The local-filesystem backend (`filter-api/file_storage.py`) -/

/-- `json.dumps` escaping of one code point with `ensure_ascii=False`
(CPython's `encode_basestring`): only the quote, the backslash and the
control characters are escaped; every other character is written raw. -/
def locEscapeChar (c : Nat) : List Nat :=
  if c = 34 then [92, 34]
  else if c = 92 then [92, 92]
  else if c = 8 then [92, 98]
  else if c = 9 then [92, 116]
  else if c = 10 then [92, 110]
  else if c = 12 then [92, 102]
  else if c = 13 then [92, 114]
  else if c < 32 then 92 :: 117 :: hex4 c
  else [c]

/-- A serialized JSON string under `ensure_ascii=False`. -/
def locQuoteStr (s : PyStr) : List Nat := 34 :: (s.flatMap locEscapeChar ++ [34])

/-- A newline followed by the two-spaces-per-level indentation of
`indent=2` at depth `d`. -/
def nlPad (d : Nat) : PyStr := 10 :: List.replicate (2 * d) 32

mutual
/-- `json.dump(data, f, ensure_ascii=False, indent=2)` at nesting depth `d`:
with an indent the separators default to `(",", ": ")`, every container item
starts on its own indented line, the closing bracket returns to the
enclosing depth, and empty containers stay inline. -/
def locDumps (d : Nat) : Json → PyStr
  | .null => [110, 117, 108, 108]
  | .bool true => [116, 114, 117, 101]
  | .bool false => [102, 97, 108, 115, 101]
  | .num i => intChars i
  | .str s => locQuoteStr s
  | .arr [] => [91, 93]
  | .arr (x :: xs) =>
    91 :: (nlPad (d + 1) ++ locDumps (d + 1) x ++ locDumpsElems (d + 1) xs
      ++ nlPad d ++ [93])
  | .obj [] => [123, 125]
  | .obj (e :: es) =>
    123 :: (nlPad (d + 1) ++ locDumpsEntry (d + 1) e
      ++ locDumpsEntries (d + 1) es ++ nlPad d ++ [125])
def locDumpsElems (d : Nat) : List Json → PyStr
  | [] => []
  | x :: xs => (44 :: (nlPad d ++ locDumps d x)) ++ locDumpsElems d xs
def locDumpsEntry (d : Nat) : PyStr × Json → PyStr
  | (k, v) => locQuoteStr k ++ (58 :: 32 :: locDumps d v)
def locDumpsEntries (d : Nat) : List (PyStr × Json) → PyStr
  | [] => []
  | e :: es => (44 :: (nlPad d ++ locDumpsEntry d e)) ++ locDumpsEntries d es
end

/-- The local storage directory state: `FILTERS_DIR` as a map from file
names to their text contents. -/
structure LocalFs where
  files : List (PyStr × PyStr)
deriving DecidableEq

/-- An exception escaping the local allocator: the
`RuntimeError("Hash collision could not be resolved")` raised once `k`
exceeds `max_length`, or the `json.JSONDecodeError` of `json.loads` on an
unreadable stored file. -/
inductive LocalErr where
  | collisionUnresolved
  | decodeError
deriving DecidableEq

/-- `json.loads` applied to a Python string (the local files are read as
text): parse the code points.  Encoding the scalar-value string to UTF-8
first is a faithful detour, `json.loads` treating a `str` and its UTF-8
`bytes` alike. -/
def loadsStr (s : PyStr) : Option Json := loads (utf8Encode s)

namespace FilterApi

/-- `read_file_content(hash_id)`: the raw text of
`FILTERS_DIR / f"{hash_id}.json"` when the file exists, else `None`. -/
def read_file_content (fs : LocalFs) (hash_id : PyStr) : Option PyStr :=
  fs.files.lookup (blobName hash_id)

/-- `save_filter_file(hash_id, data)` of the local backend:
`open(file_path, "w")` followed by `json.dump(data, f, ensure_ascii=False,
indent=2)` — an unconditional write that creates the file or silently
truncates and overwrites whatever another writer stored there.  There is no
existence check and no exclusive-create flag in this function. -/
def save_filter_file (fs : LocalFs) (hash_id : PyStr) (data : Json) : LocalFs :=
  ⟨(blobName hash_id, locDumps 0 data)
    :: fs.files.filter (fun p => p.1 != blobName hash_id)⟩

/-- `load_filter_file(hash_id)` of the local backend: `None` when the file
is absent, otherwise `json.loads` of its text (the outer `none` marks an
escaping `json.JSONDecodeError`). -/
def load_filter_file (fs : LocalFs) (hash_id : PyStr) : Option (Option Json) :=
  match read_file_content fs hash_id with
  | none => some none
  | some content =>
    match loadsStr content with
    | none => none
    | some d => some (some d)

/-- The `while True` loop of the local `generate_unique_hash`, structural on
the remaining iteration count (`max_length + 1 - k` at entry; the
`k += 1; if k > max_length: raise RuntimeError` step is fuel exhaustion):
candidate file absent — `(candidate, True)`; present with its parsed
content `==` the request — `(candidate, False)`; otherwise widen. -/
def genLoopLocalF (fs : LocalFs) (content : Json) (full_hash : PyStr) :
    Nat → Nat → Except LocalErr (PyStr × Bool)
  | 0, _ => .error .collisionUnresolved
  | f + 1, k =>
    match read_file_content fs (full_hash.take k) with
    | none => .ok (full_hash.take k, true)
    | some existing =>
      match loadsStr existing with
      | none => .error .decodeError
      | some parsed =>
        if jeqb parsed content then .ok (full_hash.take k, false)
        else genLoopLocalF fs content full_hash f (k + 1)

/-- The local `generate_unique_hash(content, hash_func, min_length,
max_length)`: the same canonical JSON and digest as the GCS variant, then
the check-then-reuse loop over the stored files.  The existence check here
and the write in `save_filter_file` are two separate steps with nothing
making them atomic. -/
def generate_unique_hash (fs : LocalFs) (content : Json)
    (hashFn : List Nat → PyStr) (min_length max_length : Nat) :
    Except LocalErr (PyStr × Bool) :=
  let content_json := dumpsCanonical content
  let full_hash := hashFn (utf8Encode content_json)
  genLoopLocalF fs content full_hash (max_length + 1 - min_length) min_length

end FilterApi

/-! ### Concrete states used to exercise the endpoints -/

/-- `hashlib.sha256(b"null").hexdigest()`: the full digest of the canonical
serialization of the document `null`. -/
def nullSha : PyStr :=
  pyOfString "74234e98afe7498fb5daf1f36ac2d78acc339464f950703b8c019892f982b90b"

/-- The bucket produced by saving `null` into an empty bucket. -/
def nullBucket : GcsBucket :=
  bucketCreate ⟨[]⟩ (blobName (nullSha.take 16))
    (utf8Encode (dumpsDefault Json.null)) (some nullSha)

/-- The truthy document `{"a": 1}`. -/
def objDoc : Json := Json.obj [([97], Json.num 1)]

/-- The SHA-256 hex digest of the canonical serialization of `objDoc`,
the seven bytes {"a":1}. -/
def objSha : PyStr :=
  pyOfString "015abd7f5cc57a2dd94b7590f04ad8084273905ee33ec5cebeae62276a97f862"

/-- The bucket produced by saving `objDoc` into an empty bucket. -/
def objBucket : GcsBucket :=
  bucketCreate ⟨[]⟩ (blobName (objSha.take 16))
    (utf8Encode (dumpsDefault objDoc)) (some objSha)

/-- A read cache poisoned with a cached `None` for the identifier of
`objDoc` (a `load` that ran before the record existed). -/
def poisonedCache : LoadCache := ⟨[(objSha.take 16, none)]⟩

/-- A stub full digest: 64 times `a` (a `hash_func` stub as in the tests). -/
def aFull : PyStr := List.replicate 64 97

/-- A second stub digest sharing a 16-character prefix with `aFull`:
63 times `a`, then `b`. -/
def bFull : PyStr := List.replicate 63 97 ++ [98]

/-- The bucket produced by saving `null` into an empty bucket under the stub
digest `aFull`. -/
def aBucket : GcsBucket :=
  bucketCreate ⟨[]⟩ (blobName (aFull.take 16))
    (utf8Encode (dumpsDefault Json.null)) (some aFull)

/-- A stored identifier: sixteen times `a`. -/
def c1Id : PyStr := List.replicate 16 97

/-- A truthy stored document, `{"a": 1}`. -/
def c1Doc : Json := Json.obj [([97], Json.num 1)]

/-- A bucket holding the record `c1Doc` under `c1Id`. -/
def c1Bucket : GcsBucket :=
  ⟨[(blobName c1Id, ⟨utf8Encode (dumpsDefault c1Doc), some aFull⟩)]⟩

/-- A read cache that has already served the record under `c1Id`. -/
def c1Cache : LoadCache := ⟨[(c1Id, some c1Doc)]⟩

/-- The bucket state a concurrent writer left behind after winning the race
for the candidate `aFull[:16]`: different content, different digest. -/
def racedBucket : GcsBucket :=
  bucketCreate ⟨[]⟩ (blobName (aFull.take 16)) [120] (some [98])

/-- A two-key object whose keys were inserted out of sorted order:
b maps to 2, then a maps to 1. -/
def baDoc : Json := Json.obj [([98], Json.num 2), ([97], Json.num 1)]

/-- The bucket produced by saving `baDoc` into an empty bucket under the
stub digest `aFull`. -/
def baBucket : GcsBucket :=
  bucketCreate ⟨[]⟩ (blobName (aFull.take 16))
    (utf8Encode (dumpsDefault baDoc)) (some aFull)

/-- A bucket in which every candidate length 16 to 64 of `aFull` is occupied
by a blob carrying a different digest. -/
def c7Bucket : GcsBucket :=
  ⟨(List.range 49).map (fun i => (blobName (aFull.take (16 + i)), ⟨[], some [98]⟩))⟩

/-! ### Decimal rendering: inverse lemmas -/

theorem natDigsF_small (f n : Nat) (acc : List Nat) (h : n < 10) :
    natDigsF f n acc = (48 + n % 10) :: acc := by
  cases f with
  | zero => rfl
  | succ f => simp [natDigsF, h]

theorem natDigsF_fuel (n : Nat) : ∀ f g acc, n ≤ f → n ≤ g →
    natDigsF f n acc = natDigsF g n acc := by
  induction n using Nat.strongRecOn with
  | _ n ih =>
    intro f g acc hf hg
    by_cases h : n < 10
    · rw [natDigsF_small f n acc h, natDigsF_small g n acc h]
    · cases f with
      | zero => omega
      | succ f =>
        cases g with
        | zero => omega
        | succ g =>
          simp only [natDigsF, if_neg h]
          exact ih (n / 10) (by omega) f g _ (by omega) (by omega)

theorem natDigs_small (n : Nat) (acc : List Nat) (h : n < 10) :
    natDigs n acc = (48 + n % 10) :: acc := natDigsF_small n n acc h

theorem natDigs_step (n : Nat) (acc : List Nat) (h : ¬ n < 10) :
    natDigs n acc = natDigs (n / 10) ((48 + n % 10) :: acc) := by
  unfold natDigs
  match hn : n, h with
  | n + 10, _ =>
    simp only [natDigsF, if_neg h]
    exact natDigsF_fuel ((n + 10) / 10) (n + 9) ((n + 10) / 10) _ (by omega) (by omega)

theorem natDigs_append (n : Nat) : ∀ acc, natDigs n acc = natDigs n [] ++ acc := by
  induction n using Nat.strongRecOn with
  | _ n ih =>
    intro acc
    by_cases h : n < 10
    · rw [natDigs_small n acc h, natDigs_small n [] h]; rfl
    · rw [natDigs_step n acc h, natDigs_step n [] h,
        ih (n / 10) (by omega) ((48 + n % 10) :: acc),
        ih (n / 10) (by omega) [48 + n % 10]]
      simp

theorem natDigs_unfold (n : Nat) :
    natDigs n [] = (if n < 10 then [] else natDigs (n / 10) []) ++ [48 + n % 10] := by
  by_cases h : n < 10
  · rw [natDigs_small n [] h, if_pos h]; rfl
  · rw [natDigs_step n [] h, if_neg h, natDigs_append]

theorem natDigs_ne_nil (n : Nat) : natDigs n [] ≠ [] := by
  rw [natDigs_unfold]; simp

theorem natDigs_digits (n : Nat) : ∀ c ∈ natDigs n [], isDigitC c = true := by
  induction n using Nat.strongRecOn with
  | _ n ih =>
    rw [natDigs_unfold]
    intro c hc
    rcases List.mem_append.mp hc with h | h
    · by_cases h10 : n < 10
      · simp [h10] at h
      · exact ih (n / 10) (by omega) c (by simpa [h10] using h)
    · rw [List.mem_singleton] at h
      subst h
      simp only [isDigitC, Bool.and_eq_true, decide_eq_true_eq]
      have := Nat.mod_lt n (show 0 < 10 by omega)
      omega

theorem digsToNat_natDigs (n : Nat) : digsToNat (natDigs n []) = n := by
  suffices h : ∀ m acc, (natDigs m []).foldl (fun a c => a * 10 + (c - 48)) acc
      = acc * 10 ^ (natDigs m []).length + m by
    have := h n 0
    simpa [digsToNat] using this
  intro m
  induction m using Nat.strongRecOn with
  | _ m ih =>
    intro acc
    by_cases h10 : m < 10
    · rw [natDigs_small m [] h10]
      simp
      omega
    · have hlen : (natDigs m []).length = (natDigs (m / 10) []).length + 1 := by
        rw [natDigs_unfold, if_neg h10]
        simp
      rw [hlen, natDigs_step m [] h10, natDigs_append]
      rw [List.foldl_append, ih (m / 10) (by omega) acc]
      simp only [List.foldl_cons, List.foldl_nil, Nat.add_sub_cancel_left, pow_succ]
      have hm := Nat.div_add_mod m 10
      ring_nf
      omega

/-! ### Integer parsing: inverse lemmas -/

theorem takeDigs_notdigit {c : Nat} {t : List Nat} (h : isDigitC c = false) :
    takeDigs (c :: t) = ([], c :: t) := by
  simp [takeDigs, h]

theorem takeDigs_stop {cs : List Nat} (h : numStop cs = true) :
    takeDigs cs = ([], cs) := by
  match cs with
  | [] => rfl
  | c :: t =>
    simp only [numStop, Bool.not_eq_true', Bool.or_eq_false_iff] at h
    exact takeDigs_notdigit h.1.1.1

theorem takeDigs_run (ds : List Nat) (hds : ∀ c ∈ ds, isDigitC c = true)
    (rest : List Nat) (hrest : takeDigs rest = ([], rest)) :
    takeDigs (ds ++ rest) = (ds, rest) := by
  induction ds with
  | nil => simpa using hrest
  | cons c t ih =>
    have hc : isDigitC c = true := hds c (by simp)
    have ht := ih fun x hx => hds x (by simp [hx])
    simp [takeDigs, hc, ht]

theorem natDigs_cons (m : Nat) :
    ∃ c t, natDigs m [] = c :: t ∧ isDigitC c = true := by
  match h : natDigs m [] with
  | [] => exact absurd h (natDigs_ne_nil m)
  | c :: t => exact ⟨c, t, rfl, natDigs_digits m c (h ▸ List.mem_cons_self ..)⟩

theorem numStop_head {c : Nat} {t : List Nat} (h : numStop (c :: t) = true) :
    isDigitC c = false ∧ c ≠ 46 ∧ c ≠ 101 ∧ c ≠ 69 := by
  simp only [numStop, Bool.not_eq_true', Bool.or_eq_false_iff,
    beq_eq_false_iff_ne] at h
  exact ⟨h.1.1.1, h.1.1.2, h.1.2, h.2⟩

theorem restTake_ne (rest : List Nat) (hr : numStop rest = true) (v : Nat)
    (hv : v = 46 ∨ v = 101 ∨ v = 69) : ¬ rest.take 1 = [v] := by
  cases rest with
  | nil => simp
  | cons c t =>
    obtain ⟨hd, h46, h101, h69⟩ := numStop_head hr
    simp only [List.take_cons_succ, List.take_zero, List.cons.injEq, and_true]
    rcases hv with rfl | rfl | rfl
    · exact h46
    · exact h101
    · exact h69

theorem parseNum_intChars (i : Int) (rest : List Nat) (hr : numStop rest = true) :
    parseNum (intChars i ++ rest) = some (i, rest) := by
  have hstop : takeDigs rest = ([], rest) := takeDigs_stop hr
  have hrun := takeDigs_run (natDigs i.natAbs []) (natDigs_digits _) rest hstop
  have h46 := restTake_ne rest hr 46 (by omega)
  have h101 := restTake_ne rest hr 101 (by omega)
  have h69 := restTake_ne rest hr 69 (by omega)
  by_cases hi : i < 0
  · have harg : intChars i ++ rest = 45 :: (natDigs i.natAbs [] ++ rest) := by
      simp [intChars, hi]
    rw [harg]
    simp only [parseNum, List.take_succ_cons, List.take_zero, List.drop_succ_cons,
      List.drop_zero, if_pos rfl, if_true]
    simp only [hrun]
    rw [if_neg (by simp [natDigs_ne_nil])]
    rw [if_neg (by simp [h46, h101, h69])]
    have hval : -(digsToNat (natDigs i.natAbs []) : Int) = i := by
      rw [digsToNat_natDigs]; omega
    simp [hval]
  · obtain ⟨c0, t0, h0, hc0⟩ := natDigs_cons i.natAbs
    have hne45 : c0 ≠ 45 := by
      simp only [isDigitC, Bool.and_eq_true, decide_eq_true_eq] at hc0
      omega
    have harg : intChars i ++ rest = c0 :: (t0 ++ rest) := by
      simp [intChars, hi, h0]
    rw [harg]
    have hrun' : takeDigs (c0 :: (t0 ++ rest)) = (c0 :: t0, rest) := by
      have := hrun
      rw [h0] at this
      simpa using this
    have hneg : ¬ (c0 :: (t0 ++ rest)).take 1 = [45] := by simp [hne45]
    simp only [parseNum, if_neg hneg]
    simp only [hrun']
    rw [if_neg (by simp)]
    rw [if_neg (by simp [h46, h101, h69])]
    have hval : (digsToNat (c0 :: t0) : Int) = i := by
      rw [← h0, digsToNat_natDigs]; omega
    simp [hval, hneg]

/-! ### String escaping: inverse lemmas -/

theorem hexValC_hexDigitChar (d : Nat) (h : d < 16) :
    hexValC (hexDigitChar d) = some d := by
  unfold hexValC hexDigitChar
  split_ifs <;> simp_all <;> omega

theorem hex4Val_hex4 (n : Nat) (h : n < 65536) :
    hex4Val (hexDigitChar (n / 4096 % 16)) (hexDigitChar (n / 256 % 16))
      (hexDigitChar (n / 16 % 16)) (hexDigitChar (n % 16)) = some n := by
  have h16 : ∀ k : Nat, k % 16 < 16 := fun k => Nat.mod_lt _ (by omega)
  simp only [hex4Val, hexValC_hexDigitChar _ (h16 _), Option.bind_eq_bind,
    Option.some_bind, Option.pure_def, Option.some.injEq]
  omega

theorem parseStrBody_raw (f : Nat) (acc : PyStr) (c : Nat) (rest : List Nat)
    (h34 : c ≠ 34) (h92 : c ≠ 92) (h32 : 32 ≤ c) :
    parseStrBody (f + 1) acc (c :: rest) = parseStrBody f (c :: acc) rest := by
  conv_lhs => rw [parseStrBody.eq_def]
  split
  · simp_all
  · omega
  · simp_all
  · simp_all
  · have hlt : ¬ c < 32 := by omega
    simp_all
  · simp_all

theorem parseStrBody_uStep (f : Nat) (acc : PyStr) (a b c d : Nat) (rest : List Nat) :
    parseStrBody (f + 1) acc (92 :: 117 :: a :: b :: c :: d :: rest)
      = (match hex4Val a b c d with
         | none => none
         | some n =>
           if 55296 ≤ n && n < 56320 then
             if rest.take 2 = [92, 117] then
               if rest.length < 6 then none
               else
                 match hex4Val (rest.getD 2 0) (rest.getD 3 0) (rest.getD 4 0)
                     (rest.getD 5 0) with
                 | none => none
                 | some m =>
                   if 56320 ≤ m && m < 57344 then
                     parseStrBody f ((65536 + (n - 55296) * 1024 + (m - 56320)) :: acc)
                       (rest.drop 6)
                   else parseStrBody f (n :: acc) rest
             else parseStrBody f (n :: acc) rest
           else parseStrBody f (n :: acc) rest) := rfl

theorem scalarCP_bounds {c : Nat} (hc : scalarCP c = true) :
    c < 1114112 ∧ (c < 55296 ∨ 57344 ≤ c) := by
  simpa [scalarCP, Bool.and_eq_true, decide_eq_true_eq, Bool.not_eq_true',
    Bool.and_eq_false_iff, not_and, Decidable.not_not] using hc

theorem parseStrBody_escape (c : Nat) (hc : scalarCP c = true) (f : Nat)
    (acc : PyStr) (rest : List Nat) :
    parseStrBody (f + 1) acc (escapeChar c ++ rest) = parseStrBody f (c :: acc) rest := by
  obtain ⟨hlt, hsur⟩ := scalarCP_bounds hc
  unfold escapeChar
  split_ifs with h1 h2 h3 h4 h5 h6 h7 h8 h9
  · subst h1; simp [parseStrBody, unescC]
  · subst h2; simp [parseStrBody, unescC]
  · subst h3; simp [parseStrBody, unescC]
  · subst h4; simp [parseStrBody, unescC]
  · subst h5; simp [parseStrBody, unescC]
  · subst h6; simp [parseStrBody, unescC]
  · subst h7; simp [parseStrBody, unescC]
  · simp only [Bool.and_eq_true, decide_eq_true_eq] at h8
    exact parseStrBody_raw f acc c rest h1 h2 h8.1
  · have harg : (92 :: 117 :: hex4 c) ++ rest
        = 92 :: 117 :: hexDigitChar (c / 4096 % 16) :: hexDigitChar (c / 256 % 16)
            :: hexDigitChar (c / 16 % 16) :: hexDigitChar (c % 16) :: rest := by
      simp [hex4]
    rw [harg, parseStrBody_uStep]
    simp only [hex4Val_hex4 c h9]
    rw [if_neg (by simp only [Bool.and_eq_true, decide_eq_true_eq]; omega)]
  · have hhi : 55296 + (c - 65536) / 1024 < 65536 := by omega
    have hlo : 56320 + (c - 65536) % 1024 < 65536 := by
      have := Nat.mod_lt (c - 65536) (show 0 < 1024 by omega)
      omega
    have harg : ((92 :: 117 :: hex4 (55296 + (c - 65536) / 1024))
          ++ (92 :: 117 :: hex4 (56320 + (c - 65536) % 1024))) ++ rest
        = 92 :: 117 :: hexDigitChar ((55296 + (c - 65536) / 1024) / 4096 % 16)
            :: hexDigitChar ((55296 + (c - 65536) / 1024) / 256 % 16)
            :: hexDigitChar ((55296 + (c - 65536) / 1024) / 16 % 16)
            :: hexDigitChar ((55296 + (c - 65536) / 1024) % 16)
            :: (92 :: 117 :: hexDigitChar ((56320 + (c - 65536) % 1024) / 4096 % 16)
                :: hexDigitChar ((56320 + (c - 65536) % 1024) / 256 % 16)
                :: hexDigitChar ((56320 + (c - 65536) % 1024) / 16 % 16)
                :: hexDigitChar ((56320 + (c - 65536) % 1024) % 16) :: rest) := by
      simp [hex4]
    rw [harg, parseStrBody_uStep]
    simp only [hex4Val_hex4 _ hhi]
    rw [if_pos (by simp only [Bool.and_eq_true, decide_eq_true_eq]; omega)]
    rw [if_pos (by simp)]
    rw [if_neg (by simp)]
    have hg : ∀ (y1 y2 y3 y4 y5 y6 : Nat) (tl : List Nat),
        ((y1 :: y2 :: y3 :: y4 :: y5 :: y6 :: tl).getD 2 0 = y3)
        ∧ ((y1 :: y2 :: y3 :: y4 :: y5 :: y6 :: tl).getD 3 0 = y4)
        ∧ ((y1 :: y2 :: y3 :: y4 :: y5 :: y6 :: tl).getD 4 0 = y5)
        ∧ ((y1 :: y2 :: y3 :: y4 :: y5 :: y6 :: tl).getD 5 0 = y6) := by
      intro y1 y2 y3 y4 y5 y6 tl
      refine ⟨rfl, rfl, rfl, rfl⟩
    obtain ⟨hg2, hg3, hg4, hg5⟩ := hg 92 117 _ _ _ _ rest
    rw [hg2, hg3, hg4, hg5]
    simp only [hex4Val_hex4 _ hlo]
    rw [if_pos (by
      simp only [Bool.and_eq_true, decide_eq_true_eq]
      have := Nat.mod_lt (c - 65536) (show 0 < 1024 by omega)
      omega)]
    have hcomb : 65536 + ((55296 + (c - 65536) / 1024) - 55296) * 1024
        + ((56320 + (c - 65536) % 1024) - 56320) = c := by
      have := Nat.div_add_mod (c - 65536) 1024
      omega
    rw [hcomb]
    simp

theorem parseStrBody_quoteEnd (f : Nat) (acc : PyStr) (rest : List Nat) :
    parseStrBody f acc (34 :: rest) = some (acc.reverse, rest) := by
  cases f <;> rfl

theorem parseStrBody_flat (s : PyStr) : ∀ (acc : PyStr) (rest : List Nat) (f : Nat),
    s.all scalarCP = true → s.length ≤ f →
    parseStrBody f acc (s.flatMap escapeChar ++ 34 :: rest)
      = some (acc.reverse ++ s, rest) := by
  induction s with
  | nil =>
    intro acc rest f _ _
    simpa using parseStrBody_quoteEnd f acc rest
  | cons c s ih =>
    intro acc rest f hall hf
    simp only [List.all_cons, Bool.and_eq_true] at hall
    cases f with
    | zero => simp at hf
    | succ f =>
      rw [List.flatMap_cons, List.append_assoc, parseStrBody_escape c hall.1,
        ih (c :: acc) rest f hall.2 (by simpa using hf)]
      simp

theorem escapeChar_len_pos (c : Nat) : 1 ≤ (escapeChar c).length := by
  unfold escapeChar
  split_ifs <;> simp [hex4]

theorem flatMap_escape_len (s : PyStr) : s.length ≤ (s.flatMap escapeChar).length := by
  induction s with
  | nil => simp
  | cons c s ih =>
    rw [List.flatMap_cons, List.length_append]
    have := escapeChar_len_pos c
    simp only [List.length_cons]
    omega

theorem parseStr_quote (s : PyStr) (rest : List Nat) (h : s.all scalarCP = true) :
    parseStr (s.flatMap escapeChar ++ 34 :: rest) = some (s, rest) := by
  unfold parseStr
  rw [parseStrBody_flat s [] rest _ h (by
    rw [List.length_append]
    have := flatMap_escape_len s
    simp only [List.length_cons]
    omega)]
  simp

/-! ### Whitespace and dispatch lemmas -/

theorem skipWs_cons_not {c : Nat} {t : List Nat} (h : isJsonWs c = false) :
    skipWs (c :: t) = c :: t := by
  simp [skipWs, h]

theorem skipWs_ws (w : List Nat) (hw : ∀ x ∈ w, isJsonWs x = true) (l : List Nat) :
    skipWs (w ++ l) = skipWs l := by
  induction w with
  | nil => simp
  | cons c t ih =>
    have hc : isJsonWs c = true := hw c (by simp)
    simp only [List.cons_append, skipWs, hc, if_pos]
    exact ih fun x hx => hw x (by simp [hx])

theorem isDigitC_props {c : Nat} (h : isDigitC c = true) :
    isJsonWs c = false ∧ c ≠ 110 ∧ c ≠ 116 ∧ c ≠ 102 ∧ c ≠ 34 ∧ c ≠ 91
      ∧ c ≠ 123 ∧ c ≠ 93 ∧ c ≠ 125 ∧ c ≠ 44 ∧ c ≠ 45 ∧ c ≠ 58 := by
  simp only [isDigitC, Bool.and_eq_true, decide_eq_true_eq] at h
  simp only [isJsonWs, Bool.or_eq_false_iff, beq_eq_false_iff_ne]
  omega

theorem dumps_head (ws1 ws2 : List Nat) (d : Json) :
    ∃ c t, dumps ws1 ws2 d = c :: t ∧ isJsonWs c = false ∧ c ≠ 93 ∧ c ≠ 125
      ∧ c ≠ 44 := by
  cases d with
  | null => exact ⟨110, _, rfl, by decide, by decide, by decide, by decide⟩
  | bool b =>
    cases b with
    | true => exact ⟨116, _, rfl, by decide, by decide, by decide, by decide⟩
    | false => exact ⟨102, _, rfl, by decide, by decide, by decide, by decide⟩
  | str s => exact ⟨34, _, rfl, by decide, by decide, by decide, by decide⟩
  | num i =>
    by_cases hi : i < 0
    · refine ⟨45, natDigs i.natAbs [], ?_, by decide, by decide, by decide, by decide⟩
      simp [dumps, intChars, hi]
    · obtain ⟨c0, t0, h0, hc0⟩ := natDigs_cons i.natAbs
      obtain ⟨hws, _, _, _, _, _, _, h93, h125, h44, _, _⟩ := isDigitC_props hc0
      refine ⟨c0, t0, ?_, hws, h93, h125, h44⟩
      simp [dumps, intChars, hi, h0]
  | arr xs =>
    cases xs with
    | nil => exact ⟨91, _, rfl, by decide, by decide, by decide, by decide⟩
    | cons x xs => exact ⟨91, _, rfl, by decide, by decide, by decide, by decide⟩
  | obj es =>
    cases es with
    | nil => exact ⟨123, _, rfl, by decide, by decide, by decide, by decide⟩
    | cons e es => exact ⟨123, _, rfl, by decide, by decide, by decide, by decide⟩

theorem skipWs_dumps (ws1 ws2 : List Nat) (d : Json) (x : List Nat) :
    skipWs (dumps ws1 ws2 d ++ x) = dumps ws1 ws2 d ++ x := by
  obtain ⟨c, t, hren, hcws, _, _, _⟩ := dumps_head ws1 ws2 d
  rw [hren, List.cons_append, skipWs_cons_not hcws]

theorem parseVal_succ (f : Nat) (cs : List Nat) :
    parseVal (f + 1) cs
      = (match skipWs cs with
         | 110 :: 117 :: 108 :: 108 :: r => some (.null, r)
         | 116 :: 114 :: 117 :: 101 :: r => some (.bool true, r)
         | 102 :: 97 :: 108 :: 115 :: 101 :: r => some (.bool false, r)
         | 34 :: r =>
           match parseStr r with
           | some (s, r') => some (.str s, r')
           | none => none
         | 91 :: r =>
           (match skipWs r with
            | 93 :: r' => some (.arr [], r')
            | _ =>
              match parseElems f r with
              | some (xs, r') => some (.arr xs, r')
              | none => none)
         | 123 :: r =>
           (match skipWs r with
            | 125 :: r' => some (.obj [], r')
            | _ =>
              match parseEntries f r with
              | some (es, r') => some (.obj es, r')
              | none => none)
         | c :: r =>
           if c == 45 || isDigitC c then
             match parseNum (c :: r) with
             | some (n, r') => some (.num n, r')
             | none => none
           else none
         | [] => none) := rfl

theorem parseVal_numCase (f : Nat) (c0 : Nat) (t : List Nat)
    (hd : isDigitC c0 = true ∨ c0 = 45) :
    parseVal (f + 1) (c0 :: t)
      = (match parseNum (c0 :: t) with
         | some (n, r') => some (.num n, r')
         | none => none) := by
  have hws : isJsonWs c0 = false := by
    rcases hd with hd | hd
    · exact (isDigitC_props hd).1
    · subst hd; decide
  rw [parseVal_succ, skipWs_cons_not hws]
  have hguard : (c0 == 45 || isDigitC c0) = true := by
    rcases hd with hd | hd
    · simp [hd]
    · simp [hd]
  split
  · rename_i heq
    rcases hd with hd | hd <;> simp_all [isDigitC]
  · rename_i heq
    rcases hd with hd | hd <;> simp_all [isDigitC]
  · rename_i heq
    rcases hd with hd | hd <;> simp_all [isDigitC]
  · rename_i heq
    rcases hd with hd | hd <;> simp_all [isDigitC]
  · rename_i heq
    rcases hd with hd | hd <;> simp_all [isDigitC]
  · rename_i heq
    rcases hd with hd | hd <;> simp_all [isDigitC]
  · rename_i c r heq
    injection heq with h1 h2
    subst h1 h2
    rw [if_pos hguard]
  · rename_i heq
    simp at heq

theorem parseVal_arrB (f : Nat) (r : List Nat) :
    parseVal (f + 1) (91 :: r)
      = (match skipWs r with
         | 93 :: r' => some (.arr [], r')
         | _ =>
           match parseElems f r with
           | some (xs, r') => some (.arr xs, r')
           | none => none) := rfl

theorem parseVal_objB (f : Nat) (r : List Nat) :
    parseVal (f + 1) (123 :: r)
      = (match skipWs r with
         | 125 :: r' => some (.obj [], r')
         | _ =>
           match parseEntries f r with
           | some (es, r') => some (.obj es, r')
           | none => none) := rfl

theorem parseVal_strB (f : Nat) (r : List Nat) :
    parseVal (f + 1) (34 :: r)
      = (match parseStr r with
         | some (s, r') => some (.str s, r')
         | none => none) := rfl

theorem parseElems_succ (f : Nat) (cs : List Nat) :
    parseElems (f + 1) cs
      = (match parseVal f cs with
         | none => none
         | some (v, r) =>
           match skipWs r with
           | 44 :: r' =>
             (match parseElems f r' with
              | some (vs, r'') => some (v :: vs, r'')
              | none => none)
           | 93 :: r' => some ([v], r')
           | _ => none) := rfl

theorem parseEntries_succ (f : Nat) (cs : List Nat) :
    parseEntries (f + 1) cs
      = (match skipWs cs with
         | 34 :: r =>
           (match parseStr r with
            | none => none
            | some (k, r1) =>
              match skipWs r1 with
              | 58 :: r2 =>
                (match parseVal f r2 with
                 | none => none
                 | some (v, r3) =>
                   match skipWs r3 with
                   | 44 :: r4 =>
                     (match parseEntries f r4 with
                      | some (es, r5) => some ((k, v) :: es, r5)
                      | none => none)
                   | 125 :: r4 => some ([(k, v)], r4)
                   | _ => none)
              | _ => none)
         | _ => none) := rfl

theorem parseVal_ws (f : Nat) (w cs : List Nat) (hw : ∀ x ∈ w, isJsonWs x = true) :
    parseVal (f + 1) (w ++ cs) = parseVal (f + 1) cs := by
  rw [parseVal_succ, parseVal_succ, skipWs_ws w hw]

theorem numStop_nil : numStop [] = true := rfl

theorem numStop_44 (t : List Nat) : numStop (44 :: t) = true := rfl

theorem numStop_93 (t : List Nat) : numStop (93 :: t) = true := rfl

theorem numStop_125 (t : List Nat) : numStop (125 :: t) = true := rfl

theorem dumps_len_pos (ws1 ws2 : List Nat) (d : Json) :
    1 ≤ (dumps ws1 ws2 d).length := by
  obtain ⟨c, t, hren, -, -, -, -⟩ := dumps_head ws1 ws2 d
  rw [hren]
  simp

theorem numStop_elemsRest (ws1 ws2 : List Nat) (xs : List Json) (rest : List Nat) :
    numStop (dumpsElems ws1 ws2 xs ++ 93 :: rest) = true := by
  cases xs with
  | nil => exact numStop_93 rest
  | cons x xs =>
    show numStop ((44 :: (ws1 ++ dumps ws1 ws2 x)) ++ dumpsElems ws1 ws2 xs
      ++ 93 :: rest) = true
    rfl

theorem numStop_entriesRest (ws1 ws2 : List Nat) (es : List (PyStr × Json))
    (rest : List Nat) :
    numStop (dumpsEntries ws1 ws2 es ++ 125 :: rest) = true := by
  cases es with
  | nil => exact numStop_125 rest
  | cons e es =>
    show numStop ((44 :: (ws1 ++ dumpsEntry ws1 ws2 e)) ++ dumpsEntries ws1 ws2 es
      ++ 125 :: rest) = true
    rfl

mutual
theorem rt_val : ∀ (d : Json) (ws1 ws2 w rest : List Nat) (f : Nat),
    wfJ d = true →
    (∀ x ∈ ws1, isJsonWs x = true) → (∀ x ∈ ws2, isJsonWs x = true) →
    (∀ x ∈ w, isJsonWs x = true) →
    numStop rest = true →
    w.length + (dumps ws1 ws2 d).length < f →
    parseVal f (w ++ (dumps ws1 ws2 d ++ rest)) = some (d, rest)
  | .null, ws1, ws2, w, rest, f, _, _, _, hw, _, hf => by
      cases f with
      | zero => omega
      | succ f =>
        rw [parseVal_ws f w _ hw]
        show parseVal (f + 1) (110 :: 117 :: 108 :: 108 :: rest) = _
        rw [parseVal_succ, skipWs_cons_not (by decide)]
  | .bool true, ws1, ws2, w, rest, f, _, _, _, hw, _, hf => by
      cases f with
      | zero => omega
      | succ f =>
        rw [parseVal_ws f w _ hw]
        show parseVal (f + 1) (116 :: 114 :: 117 :: 101 :: rest) = _
        rw [parseVal_succ, skipWs_cons_not (by decide)]
  | .bool false, ws1, ws2, w, rest, f, _, _, _, hw, _, hf => by
      cases f with
      | zero => omega
      | succ f =>
        rw [parseVal_ws f w _ hw]
        show parseVal (f + 1) (102 :: 97 :: 108 :: 115 :: 101 :: rest) = _
        rw [parseVal_succ, skipWs_cons_not (by decide)]
  | .num i, ws1, ws2, w, rest, f, _, _, _, hw, hr, hf => by
      cases f with
      | zero => omega
      | succ f =>
        rw [parseVal_ws f w _ hw]
        by_cases hi : i < 0
        · have harg : dumps ws1 ws2 (.num i) ++ rest
              = 45 :: (natDigs i.natAbs [] ++ rest) := by
            simp [dumps, intChars, hi]
          rw [harg, parseVal_numCase f 45 _ (Or.inr rfl), ← harg]
          have : dumps ws1 ws2 (.num i) = intChars i := rfl
          rw [this, parseNum_intChars i rest hr]
        · obtain ⟨c0, t0, h0, hc0⟩ := natDigs_cons i.natAbs
          have harg : dumps ws1 ws2 (.num i) ++ rest = c0 :: (t0 ++ rest) := by
            simp [dumps, intChars, hi, h0]
          rw [harg, parseVal_numCase f c0 _ (Or.inl hc0), ← harg]
          have : dumps ws1 ws2 (.num i) = intChars i := rfl
          rw [this, parseNum_intChars i rest hr]
  | .str s, ws1, ws2, w, rest, f, hwf, _, _, hw, _, hf => by
      cases f with
      | zero => omega
      | succ f =>
        rw [parseVal_ws f w _ hw]
        have harg : dumps ws1 ws2 (.str s) ++ rest
            = 34 :: (s.flatMap escapeChar ++ 34 :: rest) := by
          simp [dumps, quoteStr]
        rw [harg, parseVal_strB, parseStr_quote s rest (by simpa [wfJ] using hwf)]
  | .arr [], ws1, ws2, w, rest, f, _, _, _, hw, _, hf => by
      cases f with
      | zero => omega
      | succ f =>
        rw [parseVal_ws f w _ hw]
        show parseVal (f + 1) (91 :: (93 :: rest)) = _
        rw [parseVal_arrB, skipWs_cons_not (by decide)]
  | .arr (x :: xs), ws1, ws2, w, rest, f, hwf, hw1, hw2, hw, hr, hf => by
      cases f with
      | zero => omega
      | succ f =>
        rw [parseVal_ws f w _ hw]
        simp only [wfJ, wfElems, Bool.and_eq_true] at hwf
        have harg : dumps ws1 ws2 (.arr (x :: xs)) ++ rest
            = 91 :: (dumps ws1 ws2 x ++ (dumpsElems ws1 ws2 xs ++ 93 :: rest)) := by
          show (91 :: ((dumps ws1 ws2 x ++ dumpsElems ws1 ws2 xs) ++ [93])) ++ rest = _
          simp
        rw [harg, parseVal_arrB]
        have hkey := rt_elems x xs ws1 ws2 [] rest f hwf.1 hwf.2 hw1 hw2
          (by intro x hx; simp at hx) (by
            have h1 := dumps_len_pos ws1 ws2 x
            have hlen : (dumps ws1 ws2 (.arr (x :: xs))).length
                = (dumps ws1 ws2 x).length + (dumpsElems ws1 ws2 xs).length + 2 := by
              show (91 :: ((dumps ws1 ws2 x ++ dumpsElems ws1 ws2 xs) ++ [93])).length = _
              simp
              omega
            simp only [List.length_nil]
            omega)
        simp only [List.nil_append] at hkey
        obtain ⟨c, t, hren, hcws, h93, -, -⟩ := dumps_head ws1 ws2 x
        rw [show dumps ws1 ws2 x ++ (dumpsElems ws1 ws2 xs ++ 93 :: rest)
            = c :: (t ++ (dumpsElems ws1 ws2 xs ++ 93 :: rest)) by rw [hren]; simp,
          skipWs_cons_not hcws]
        rw [show c :: (t ++ (dumpsElems ws1 ws2 xs ++ 93 :: rest))
            = dumps ws1 ws2 x ++ (dumpsElems ws1 ws2 xs ++ 93 :: rest) by rw [hren]; simp]
        split
        · rename_i heq
          rw [hren] at heq
          injection heq with hc _
          exact absurd hc h93
        · rw [hkey]
  | .obj [], ws1, ws2, w, rest, f, _, _, _, hw, _, hf => by
      cases f with
      | zero => omega
      | succ f =>
        rw [parseVal_ws f w _ hw]
        show parseVal (f + 1) (123 :: (125 :: rest)) = _
        rw [parseVal_objB, skipWs_cons_not (by decide)]
  | .obj ((k, v) :: es), ws1, ws2, w, rest, f, hwf, hw1, hw2, hw, hr, hf => by
      cases f with
      | zero => omega
      | succ f =>
        rw [parseVal_ws f w _ hw]
        simp only [wfJ, wfEntries, Bool.and_eq_true] at hwf
        have harg : dumps ws1 ws2 (.obj ((k, v) :: es)) ++ rest
            = 123 :: (dumpsEntry ws1 ws2 (k, v)
                ++ (dumpsEntries ws1 ws2 es ++ 125 :: rest)) := by
          show (123 :: ((dumpsEntry ws1 ws2 (k, v) ++ dumpsEntries ws1 ws2 es)
              ++ [125])) ++ rest = _
          simp
        rw [harg, parseVal_objB]
        have hkey := rt_entries k v es ws1 ws2 [] rest f hwf.2.1.1 hwf.2.1.2 hwf.2.2
          hw1 hw2 (by intro x hx; simp at hx) (by
            have hlen : (dumps ws1 ws2 (.obj ((k, v) :: es))).length
                = (dumpsEntry ws1 ws2 (k, v)).length
                  + (dumpsEntries ws1 ws2 es).length + 2 := by
              show (123 :: ((dumpsEntry ws1 ws2 (k, v) ++ dumpsEntries ws1 ws2 es)
                  ++ [125])).length = _
              simp
              omega
            simp only [List.length_nil]
            omega)
        simp only [List.nil_append] at hkey
        have hentry : dumpsEntry ws1 ws2 (k, v) ++ (dumpsEntries ws1 ws2 es ++ 125 :: rest)
            = 34 :: ((k.flatMap escapeChar ++ [34])
                ++ (58 :: (ws2 ++ (dumps ws1 ws2 v
                  ++ (dumpsEntries ws1 ws2 es ++ 125 :: rest))))) := by
          show (quoteStr k ++ (58 :: (ws2 ++ dumps ws1 ws2 v))) ++ _ = _
          simp [quoteStr]
        rw [hentry, skipWs_cons_not (by decide), ← hentry]
        split
        · rename_i heq
          rw [hentry] at heq
          injection heq with h1 _
          omega
        · rw [hkey]
  termination_by d _ _ _ _ _ => sizeOf d
  decreasing_by all_goals (simp_wf; omega)
theorem rt_elems : ∀ (x : Json) (xs : List Json) (ws1 ws2 w rest : List Nat) (f : Nat),
    wfJ x = true → wfElems xs = true →
    (∀ y ∈ ws1, isJsonWs y = true) → (∀ y ∈ ws2, isJsonWs y = true) →
    (∀ y ∈ w, isJsonWs y = true) →
    w.length + (dumps ws1 ws2 x).length + (dumpsElems ws1 ws2 xs).length + 1 < f →
    parseElems f (w ++ (dumps ws1 ws2 x ++ (dumpsElems ws1 ws2 xs ++ 93 :: rest)))
      = some (x :: xs, rest)
  | x, [], ws1, ws2, w, rest, f, hwx, _, hw1, hw2, hw, hf => by
      cases f with
      | zero => omega
      | succ f =>
        rw [parseElems_succ]
        have hv := rt_val x ws1 ws2 w (93 :: rest) f hwx hw1 hw2 hw
          (numStop_93 rest) (by omega)
        have harg : w ++ (dumps ws1 ws2 x ++ (dumpsElems ws1 ws2 [] ++ 93 :: rest))
            = w ++ (dumps ws1 ws2 x ++ 93 :: rest) := by
          show w ++ (dumps ws1 ws2 x ++ ([] ++ 93 :: rest)) = _
          simp
        rw [harg, hv]
        simp only [skipWs_cons_not (show isJsonWs 93 = false by decide)]
  | x, x2 :: xs2, ws1, ws2, w, rest, f, hwx, hwxs, hw1, hw2, hw, hf => by
      cases f with
      | zero => omega
      | succ f =>
        rw [parseElems_succ]
        simp only [wfElems, Bool.and_eq_true] at hwxs
        have hrest2 : numStop (dumpsElems ws1 ws2 (x2 :: xs2) ++ 93 :: rest) = true :=
          numStop_elemsRest ws1 ws2 (x2 :: xs2) rest
        have hv := rt_val x ws1 ws2 w (dumpsElems ws1 ws2 (x2 :: xs2) ++ 93 :: rest) f
          hwx hw1 hw2 hw hrest2 (by omega)
        rw [hv]
        have hsep : dumpsElems ws1 ws2 (x2 :: xs2) ++ 93 :: rest
            = 44 :: (ws1 ++ (dumps ws1 ws2 x2 ++ (dumpsElems ws1 ws2 xs2 ++ 93 :: rest))) := by
          show (44 :: (ws1 ++ dumps ws1 ws2 x2)) ++ dumpsElems ws1 ws2 xs2 ++ 93 :: rest = _
          simp
        rw [hsep]
        simp only [skipWs_cons_not (show isJsonWs 44 = false by decide)]
        have hkey := rt_elems x2 xs2 ws1 ws2 ws1 rest f hwxs.1 hwxs.2 hw1 hw2 hw1 (by
          have h1 := dumps_len_pos ws1 ws2 x
          have hlen : (dumpsElems ws1 ws2 (x2 :: xs2)).length
              = 1 + ws1.length + (dumps ws1 ws2 x2).length
                + (dumpsElems ws1 ws2 xs2).length := by
            show ((44 :: (ws1 ++ dumps ws1 ws2 x2)) ++ dumpsElems ws1 ws2 xs2).length = _
            simp
            omega
          omega)
        rw [hkey]
  termination_by x xs _ _ _ _ _ => sizeOf x + sizeOf xs + 1
  decreasing_by all_goals (simp_wf; omega)
theorem rt_entries : ∀ (k : PyStr) (v : Json) (es : List (PyStr × Json))
      (ws1 ws2 w rest : List Nat) (f : Nat),
    k.all scalarCP = true → wfJ v = true → wfEntries es = true →
    (∀ y ∈ ws1, isJsonWs y = true) → (∀ y ∈ ws2, isJsonWs y = true) →
    (∀ y ∈ w, isJsonWs y = true) →
    w.length + (dumpsEntry ws1 ws2 (k, v)).length
      + (dumpsEntries ws1 ws2 es).length + 1 < f →
    parseEntries f (w ++ (dumpsEntry ws1 ws2 (k, v)
        ++ (dumpsEntries ws1 ws2 es ++ 125 :: rest)))
      = some ((k, v) :: es, rest)
  | k, v, [], ws1, ws2, w, rest, f, hk, hv, hes, hw1, hw2, hw, hf => by
      cases f with
      | zero => omega
      | succ f =>
        rw [parseEntries_succ, skipWs_ws w hw]
        have hentry : dumpsEntry ws1 ws2 (k, v) ++ (dumpsEntries ws1 ws2 [] ++ 125 :: rest)
            = 34 :: (k.flatMap escapeChar ++ 34 :: (58 :: (ws2 ++ (dumps ws1 ws2 v
                ++ 125 :: rest)))) := by
          show (quoteStr k ++ (58 :: (ws2 ++ dumps ws1 ws2 v))) ++ ([] ++ _) = _
          simp [quoteStr]
        rw [hentry]
        simp only [skipWs_cons_not (show isJsonWs 34 = false by decide)]
        simp only [parseStr_quote k _ hk]
        simp only [skipWs_cons_not (show isJsonWs 58 = false by decide)]
        have hqlen : (dumpsEntry ws1 ws2 (k, v)).length
            = (k.flatMap escapeChar).length + 3 + ws2.length
              + (dumps ws1 ws2 v).length := by
          show ((quoteStr k ++ (58 :: (ws2 ++ dumps ws1 ws2 v)))).length = _
          simp [quoteStr]
          omega
        have hval := rt_val v ws1 ws2 ws2 (125 :: rest) f
          hv hw1 hw2 hw2 (numStop_125 rest) (by omega)
        simp only [hval]
        simp only [skipWs_cons_not (show isJsonWs 125 = false by decide)]
  | k, v, (k2, v2) :: es2, ws1, ws2, w, rest, f, hk, hv, hes, hw1, hw2, hw, hf => by
      cases f with
      | zero => omega
      | succ f =>
        rw [parseEntries_succ, skipWs_ws w hw]
        have hentry : dumpsEntry ws1 ws2 (k, v)
              ++ (dumpsEntries ws1 ws2 ((k2, v2) :: es2) ++ 125 :: rest)
            = 34 :: (k.flatMap escapeChar ++ 34 :: (58 :: (ws2 ++ (dumps ws1 ws2 v
                ++ (dumpsEntries ws1 ws2 ((k2, v2) :: es2) ++ 125 :: rest))))) := by
          show (quoteStr k ++ (58 :: (ws2 ++ dumps ws1 ws2 v))) ++ _ = _
          simp [quoteStr]
        rw [hentry]
        simp only [skipWs_cons_not (show isJsonWs 34 = false by decide)]
        simp only [parseStr_quote k _ hk]
        simp only [skipWs_cons_not (show isJsonWs 58 = false by decide)]
        have hqlen : (dumpsEntry ws1 ws2 (k, v)).length
            = (k.flatMap escapeChar).length + 3 + ws2.length
              + (dumps ws1 ws2 v).length := by
          show ((quoteStr k ++ (58 :: (ws2 ++ dumps ws1 ws2 v)))).length = _
          simp [quoteStr]
          omega
        have hval := rt_val v ws1 ws2 ws2
          (dumpsEntries ws1 ws2 ((k2, v2) :: es2) ++ 125 :: rest) f
          hv hw1 hw2 hw2 (numStop_entriesRest ws1 ws2 ((k2, v2) :: es2) rest) (by omega)
        simp only [hval]
        simp only [wfEntries, Bool.and_eq_true] at hes
        have hsep : dumpsEntries ws1 ws2 ((k2, v2) :: es2) ++ 125 :: rest
            = 44 :: (ws1 ++ (dumpsEntry ws1 ws2 (k2, v2)
                ++ (dumpsEntries ws1 ws2 es2 ++ 125 :: rest))) := by
          show (44 :: (ws1 ++ dumpsEntry ws1 ws2 (k2, v2)))
              ++ dumpsEntries ws1 ws2 es2 ++ 125 :: rest = _
          simp
        rw [hsep]
        simp only [skipWs_cons_not (show isJsonWs 44 = false by decide)]
        have hkey := rt_entries k2 v2 es2 ws1 ws2 ws1 rest f hes.1.1 hes.1.2 hes.2
          hw1 hw2 hw1 (by
            have hlen : (dumpsEntries ws1 ws2 ((k2, v2) :: es2)).length
                = 1 + ws1.length + (dumpsEntry ws1 ws2 (k2, v2)).length
                  + (dumpsEntries ws1 ws2 es2).length := by
              show ((44 :: (ws1 ++ dumpsEntry ws1 ws2 (k2, v2)))
                  ++ dumpsEntries ws1 ws2 es2).length = _
              simp
              omega
            omega)
        rw [hkey]
  termination_by _ v es _ _ _ _ _ => sizeOf v + sizeOf es + 1
  decreasing_by all_goals (simp_wf; omega)
end

/-! ### ASCII serialization and UTF-8 round trip -/

theorem hexDigitChar_lt (k : Nat) : hexDigitChar (k % 16) < 128 := by
  have : k % 16 < 16 := Nat.mod_lt _ (by omega)
  unfold hexDigitChar
  split <;> omega

theorem hex4_ascii (n : Nat) : ∀ y ∈ hex4 n, y < 128 := by
  intro y hy
  simp only [hex4, List.mem_cons, List.not_mem_nil, or_false] at hy
  rcases hy with rfl | rfl | rfl | rfl <;> exact hexDigitChar_lt _

theorem escapeChar_ascii (c : Nat) : ∀ y ∈ escapeChar c, y < 128 := by
  intro y hy
  unfold escapeChar at hy
  split_ifs at hy with h1 h2 h3 h4 h5 h6 h7 h8 h9
  · simp at hy; rcases hy with rfl | rfl <;> omega
  · simp at hy; rcases hy with rfl | rfl <;> omega
  · simp at hy; rcases hy with rfl | rfl <;> omega
  · simp at hy; rcases hy with rfl | rfl <;> omega
  · simp at hy; rcases hy with rfl | rfl <;> omega
  · simp at hy; rcases hy with rfl | rfl <;> omega
  · simp at hy; rcases hy with rfl | rfl <;> omega
  · simp only [Bool.and_eq_true, decide_eq_true_eq] at h8
    simp at hy
    omega
  · simp only [List.mem_cons] at hy
    rcases hy with rfl | rfl | hy
    · omega
    · omega
    · exact hex4_ascii c y hy
  · simp only [List.append_assoc, List.cons_append, List.mem_append,
      List.mem_cons, List.not_mem_nil, or_false, or_assoc] at hy
    rcases hy with rfl | rfl | hy | rfl | rfl | hy
    any_goals omega
    · exact hex4_ascii _ y hy
    · exact hex4_ascii _ y hy

theorem quoteStr_ascii (s : PyStr) : ∀ y ∈ quoteStr s, y < 128 := by
  intro y hy
  simp only [quoteStr, List.mem_cons, List.mem_append, List.mem_singleton,
    List.mem_flatMap] at hy
  rcases hy with rfl | ⟨c, -, hc⟩ | rfl | hy
  · omega
  · exact escapeChar_ascii c y hc
  · omega
  · simp at hy

theorem intChars_ascii (i : Int) : ∀ y ∈ intChars i, y < 128 := by
  intro y hy
  simp only [intChars, List.mem_append] at hy
  rcases hy with hy | hy
  · split_ifs at hy
    · simp at hy; omega
    · simp at hy
  · have := natDigs_digits i.natAbs y hy
    simp only [isDigitC, Bool.and_eq_true, decide_eq_true_eq] at this
    omega

mutual
theorem dumps_ascii : ∀ (d : Json) (ws1 ws2 : List Nat),
    (∀ x ∈ ws1, x < 128) → (∀ x ∈ ws2, x < 128) →
    ∀ c ∈ dumps ws1 ws2 d, c < 128
  | .null, ws1, ws2, h1, h2 => by intro c hc; simp [dumps] at hc; omega
  | .bool true, ws1, ws2, h1, h2 => by intro c hc; simp [dumps] at hc; omega
  | .bool false, ws1, ws2, h1, h2 => by intro c hc; simp [dumps] at hc; omega
  | .num i, ws1, ws2, h1, h2 => by
      intro c hc
      exact intChars_ascii i c hc
  | .str s, ws1, ws2, h1, h2 => by
      intro c hc
      exact quoteStr_ascii s c hc
  | .arr [], ws1, ws2, h1, h2 => by intro c hc; simp [dumps] at hc; omega
  | .arr (x :: xs), ws1, ws2, h1, h2 => by
      intro c hc
      have hc' : c = 91 ∨ c ∈ dumps ws1 ws2 x ∨ c ∈ dumpsElems ws1 ws2 xs ∨ c = 93 := by
        simpa [dumps, List.mem_append] using hc
      rcases hc' with rfl | hc' | hc' | rfl
      · omega
      · exact dumps_ascii x ws1 ws2 h1 h2 c hc'
      · exact dumpsElems_ascii xs ws1 ws2 h1 h2 c hc'
      · omega
  | .obj [], ws1, ws2, h1, h2 => by intro c hc; simp [dumps] at hc; omega
  | .obj (e :: es), ws1, ws2, h1, h2 => by
      intro c hc
      have hc' : c = 123 ∨ c ∈ dumpsEntry ws1 ws2 e ∨ c ∈ dumpsEntries ws1 ws2 es
          ∨ c = 125 := by
        simpa [dumps, List.mem_append] using hc
      rcases hc' with rfl | hc' | hc' | rfl
      · omega
      · exact dumpsEntry_ascii e ws1 ws2 h1 h2 c hc'
      · exact dumpsEntries_ascii es ws1 ws2 h1 h2 c hc'
      · omega
theorem dumpsElems_ascii : ∀ (xs : List Json) (ws1 ws2 : List Nat),
    (∀ x ∈ ws1, x < 128) → (∀ x ∈ ws2, x < 128) →
    ∀ c ∈ dumpsElems ws1 ws2 xs, c < 128
  | [], ws1, ws2, h1, h2 => by intro c hc; simp [dumpsElems] at hc
  | x :: xs, ws1, ws2, h1, h2 => by
      intro c hc
      have hc' : c = 44 ∨ c ∈ ws1 ∨ c ∈ dumps ws1 ws2 x ∨ c ∈ dumpsElems ws1 ws2 xs := by
        simpa [dumpsElems, List.mem_append] using hc
      rcases hc' with rfl | hc' | hc' | hc'
      · omega
      · exact h1 c hc'
      · exact dumps_ascii x ws1 ws2 h1 h2 c hc'
      · exact dumpsElems_ascii xs ws1 ws2 h1 h2 c hc'
theorem dumpsEntry_ascii : ∀ (e : PyStr × Json) (ws1 ws2 : List Nat),
    (∀ x ∈ ws1, x < 128) → (∀ x ∈ ws2, x < 128) →
    ∀ c ∈ dumpsEntry ws1 ws2 e, c < 128
  | (k, v), ws1, ws2, h1, h2 => by
      intro c hc
      have hc' : c ∈ quoteStr k ∨ c = 58 ∨ c ∈ ws2 ∨ c ∈ dumps ws1 ws2 v := by
        simpa [dumpsEntry, List.mem_append] using hc
      rcases hc' with hc' | rfl | hc' | hc'
      · exact quoteStr_ascii k c hc'
      · omega
      · exact h2 c hc'
      · exact dumps_ascii v ws1 ws2 h1 h2 c hc'
theorem dumpsEntries_ascii : ∀ (es : List (PyStr × Json)) (ws1 ws2 : List Nat),
    (∀ x ∈ ws1, x < 128) → (∀ x ∈ ws2, x < 128) →
    ∀ c ∈ dumpsEntries ws1 ws2 es, c < 128
  | [], ws1, ws2, h1, h2 => by intro c hc; simp [dumpsEntries] at hc
  | e :: es, ws1, ws2, h1, h2 => by
      intro c hc
      have hc' : c = 44 ∨ c ∈ ws1 ∨ c ∈ dumpsEntry ws1 ws2 e
          ∨ c ∈ dumpsEntries ws1 ws2 es := by
        simpa [dumpsEntries, List.mem_append] using hc
      rcases hc' with rfl | hc' | hc' | hc'
      · omega
      · exact h1 c hc'
      · exact dumpsEntry_ascii e ws1 ws2 h1 h2 c hc'
      · exact dumpsEntries_ascii es ws1 ws2 h1 h2 c hc'
end

theorem utf8Encode_ascii (l : List Nat) (h : ∀ c ∈ l, c < 128) : utf8Encode l = l := by
  induction l with
  | nil => rfl
  | cons c t ih =>
    have hc : c < 128 := h c (by simp)
    have harg : utf8Char c = [c] := by simp [utf8Char, hc]
    simp only [utf8Encode, List.flatMap_cons, harg]
    have := ih fun x hx => h x (by simp [hx])
    simp only [utf8Encode] at this
    simp [this]

theorem utf8DecodeF_ascii (f : Nat) : ∀ (l : List Nat), l.length ≤ f →
    (∀ c ∈ l, c < 128) → utf8DecodeF f l = some l := by
  induction f with
  | zero =>
    intro l hl _
    match l, hl with
    | [], _ => rfl
  | succ f ih =>
    intro l hl hc
    match l with
    | [] => rfl
    | b :: bs =>
      have hb : b < 128 := hc b (by simp)
      simp only [utf8DecodeF, if_pos hb]
      rw [ih bs (by simpa using hl) fun x hx => hc x (by simp [hx])]
      rfl

theorem utf8Decode_ascii (l : List Nat) (h : ∀ c ∈ l, c < 128) :
    utf8Decode l = some l :=
  utf8DecodeF_ascii l.length l (by omega) h

theorem isJsonWs_lt {x : Nat} (h : isJsonWs x = true) : x < 128 := by
  simp only [isJsonWs, Bool.or_eq_true, beq_iff_eq] at h
  omega

/-- The parser inverts the serializer: `json.loads` of the UTF-8 bytes of
`json.dumps` output recovers the serialized value, for every well-formed
value and every separator pair in the repository's family. -/
theorem loads_dumps (ws1 ws2 : List Nat) (d : Json)
    (h1 : ∀ x ∈ ws1, isJsonWs x = true) (h2 : ∀ x ∈ ws2, isJsonWs x = true)
    (hwf : wfJ d = true) :
    loads (utf8Encode (dumps ws1 ws2 d)) = some d := by
  have hascii := dumps_ascii d ws1 ws2 (fun x hx => isJsonWs_lt (h1 x hx))
    (fun x hx => isJsonWs_lt (h2 x hx))
  rw [loads, utf8Encode_ascii _ hascii, utf8Decode_ascii _ hascii]
  show parseTop (dumps ws1 ws2 d) = some d
  rw [parseTop]
  have hv := rt_val d ws1 ws2 [] [] ((dumps ws1 ws2 d).length + 1) hwf h1 h2
    (by intro x hx; simp at hx) numStop_nil (by simp)
  simp only [List.nil_append, List.append_nil] at hv
  simp [hv, skipWs]

/-! ### Key ordering and canonical sorting -/

theorem pyStrLe_total (a b : PyStr) : pyStrLe a b = true ∨ pyStrLe b a = true := by
  induction a generalizing b with
  | nil => left; rfl
  | cons x xs ih =>
    cases b with
    | nil => right; rfl
    | cons y ys =>
      rcases Nat.lt_trichotomy x y with h | h | h
      · left; simp [pyStrLe, h]
      · subst h
        rcases ih ys with h' | h'
        · left; simp [pyStrLe, h']
        · right; simp [pyStrLe, h']
      · right; simp [pyStrLe, h, Nat.lt_asymm h]

theorem pyStrLe_antisymm {a b : PyStr} (h1 : pyStrLe a b = true)
    (h2 : pyStrLe b a = true) : a = b := by
  induction a generalizing b with
  | nil =>
    cases b with
    | nil => rfl
    | cons y ys => simp [pyStrLe] at h2
  | cons x xs ih =>
    cases b with
    | nil => simp [pyStrLe] at h1
    | cons y ys =>
      rcases Nat.lt_trichotomy x y with h | h | h
      · simp [pyStrLe, h, Nat.lt_asymm h] at h2
      · subst h
        simp only [pyStrLe, lt_irrefl, if_false, if_neg (lt_irrefl x)] at h1 h2
        rw [ih h1 h2]
      · simp [pyStrLe, h, Nat.lt_asymm h] at h1

theorem pyStrLe_trans {a b c : PyStr} (h1 : pyStrLe a b = true)
    (h2 : pyStrLe b c = true) : pyStrLe a c = true := by
  induction a generalizing b c with
  | nil => rfl
  | cons x xs ih =>
    cases b with
    | nil => simp [pyStrLe] at h1
    | cons y ys =>
      cases c with
      | nil => simp [pyStrLe] at h2
      | cons z zs =>
        simp only [pyStrLe] at h1 h2 ⊢
        split_ifs at h1 h2 ⊢
        all_goals first
          | rfl
          | omega
          | exact ih h1 h2
          | simp_all

instance : IsTotal (PyStr × Json) entryLe :=
  ⟨fun p q => pyStrLe_total p.1 q.1⟩

instance : IsTrans (PyStr × Json) entryLe :=
  ⟨fun _ _ _ h1 h2 => pyStrLe_trans h1 h2⟩

theorem keysOf_sortEntries (es : List (PyStr × Json)) :
    keysOf (sortEntries es) = keysOf es := by
  induction es with
  | nil => rfl
  | cons e es ih =>
    obtain ⟨k, v⟩ := e
    simp only [sortEntries, keysOf, List.map_cons] at ih ⊢
    rw [ih]

theorem length_sortEntries (es : List (PyStr × Json)) :
    (sortEntries es).length = es.length := by
  induction es with
  | nil => rfl
  | cons e es ih =>
    obtain ⟨k, v⟩ := e
    simp only [sortEntries, List.length_cons, ih]

theorem mem_sortEntries {k : PyStr} {w : Json} {es : List (PyStr × Json)} :
    (k, w) ∈ sortEntries es ↔ ∃ v, (k, v) ∈ es ∧ w = sortJson v := by
  induction es with
  | nil => simp [sortEntries]
  | cons e es ih =>
    obtain ⟨k', v'⟩ := e
    simp only [sortEntries, List.mem_cons, ih, Prod.mk.injEq]
    constructor
    · rintro (⟨rfl, rfl⟩ | ⟨v, hv, rfl⟩)
      · exact ⟨v', Or.inl ⟨rfl, rfl⟩, rfl⟩
      · exact ⟨v, Or.inr hv, rfl⟩
    · rintro ⟨v, (⟨rfl, rfl⟩ | hv), rfl⟩
      · exact Or.inl ⟨rfl, rfl⟩
      · exact Or.inr ⟨v, hv, rfl⟩

theorem wfKeysDistinct_iff (ks : List PyStr) :
    wfKeysDistinct ks = true ↔ ks.Nodup := by
  induction ks with
  | nil => simp [wfKeysDistinct]
  | cons k ks ih =>
    simp only [wfKeysDistinct, Bool.and_eq_true, Bool.not_eq_true',
      List.nodup_cons, ih]
    constructor
    · rintro ⟨h1, h2⟩
      refine ⟨fun hmem => ?_, h2⟩
      simp [List.contains, List.elem_eq_mem, hmem] at h1
    · rintro ⟨h1, h2⟩
      refine ⟨?_, h2⟩
      simp [List.contains, List.elem_eq_mem, h1]

theorem lookup_mem {k : PyStr} {v : Json} {es : List (PyStr × Json)}
    (h : es.lookup k = some v) : (k, v) ∈ es := by
  induction es with
  | nil => simp [List.lookup] at h
  | cons e es ih =>
    obtain ⟨k', v'⟩ := e
    by_cases hk : k = k'
    · subst hk
      simp [List.lookup] at h
      simp [h]
    · have hb : (k == k') = false := by simpa using hk
      simp only [List.lookup, hb] at h
      exact List.mem_cons_of_mem _ (ih h)

theorem mem_lookup {k : PyStr} {v : Json} {es : List (PyStr × Json)}
    (hnd : (keysOf es).Nodup) (h : (k, v) ∈ es) : es.lookup k = some v := by
  induction es with
  | nil => simp at h
  | cons e es ih =>
    obtain ⟨k', v'⟩ := e
    simp only [keysOf, List.map_cons, List.nodup_cons] at hnd
    rcases List.mem_cons.mp h with heq | hmem
    · injection heq with h1 h2
      subst h1; subst h2
      simp [List.lookup]
    · have hk : k ≠ k' := by
        rintro rfl
        exact hnd.1 (by
          simp only [keysOf, List.mem_map]
          exact ⟨(k, v), hmem, rfl⟩)
      have hb : (k == k') = false := by simpa using hk
      simp only [List.lookup, hb]
      exact ih hnd.2 hmem

theorem jeqbEntries_forall {es fs : List (PyStr × Json)}
    (h : jeqbEntries es fs = true) :
    ∀ k v, (k, v) ∈ es → ∃ v', fs.lookup k = some v' ∧ jeqb v v' = true := by
  induction es with
  | nil => intro k v hv; simp at hv
  | cons e es ih =>
    obtain ⟨k', v'⟩ := e
    simp only [jeqbEntries, Bool.and_eq_true] at h
    intro k v hv
    rcases List.mem_cons.mp hv with heq | hmem
    · injection heq with h1 h2
      subst h1; subst h2
      obtain ⟨h1, -⟩ := h
      match hl : fs.lookup k with
      | some w =>
        rw [hl] at h1
        exact ⟨w, rfl, h1⟩
      | none => rw [hl] at h1; simp at h1
    · exact ih h.2 k v hmem

theorem jeqbEntries_build : ∀ (es fs : List (PyStr × Json)),
    (∀ k v, (k, v) ∈ es → ∃ v', fs.lookup k = some v' ∧ jeqb v v' = true) →
    jeqbEntries es fs = true := by
  intro es fs h
  induction es with
  | nil => rfl
  | cons e es ih =>
    obtain ⟨k', v'⟩ := e
    obtain ⟨w, hw, hjw⟩ := h k' v' (by simp)
    simp only [jeqbEntries, Bool.and_eq_true, hw, hjw]
    exact ⟨trivial, ih fun k v hv => h k v (by simp [hv])⟩

theorem jeqbElems_iff {xs ys : List Json} :
    jeqbElems xs ys = true
      ↔ xs.length = ys.length ∧ ∀ i h1 h2, jeqb (xs.get ⟨i, h1⟩) (ys.get ⟨i, h2⟩) = true := by
  induction xs generalizing ys with
  | nil =>
    cases ys with
    | nil => simp [jeqbElems]
    | cons y ys => simp [jeqbElems]
  | cons x xs ih =>
    cases ys with
    | nil => simp [jeqbElems]
    | cons y ys =>
      simp only [jeqbElems, Bool.and_eq_true, ih, List.length_cons]
      constructor
      · rintro ⟨h1, h2, h3⟩
        refine ⟨by omega, fun i hi1 hi2 => ?_⟩
        cases i with
        | zero => exact h1
        | succ i => exact h3 i (by omega) (by omega)
      · rintro ⟨h1, h2⟩
        exact ⟨h2 0 (by omega) (by omega), by omega,
          fun i hi1 hi2 => h2 (i + 1) (by omega) (by omega)⟩

theorem sorted_keyNodup_eq : ∀ (l1 l2 : List (PyStr × Json)), l1.Perm l2 →
    List.Sorted entryLe l1 → List.Sorted entryLe l2 →
    (keysOf l1).Nodup → l1 = l2
  | [], l2, hp, _, _, _ => hp.symm.eq_nil.symm
  | a :: l1, [], hp, _, _, _ => by
    exact absurd hp.eq_nil (by simp)
  | a :: l1, b :: l2, hp, hs1, hs2, hnd => by
    have hab : a = b := by
      by_contra hne
      have ha2 : a ∈ b :: l2 := hp.mem_iff.mp (by simp)
      have hb1 : b ∈ a :: l1 := hp.mem_iff.mpr (by simp)
      rcases List.mem_cons.mp ha2 with h | ha2'
      · exact hne h
      rcases List.mem_cons.mp hb1 with h | hb1'
      · exact hne h.symm
      have h1 : entryLe a b := (List.sorted_cons.mp hs1).1 b hb1'
      have h2 : entryLe b a := (List.sorted_cons.mp hs2).1 a ha2'
      have hk : a.1 = b.1 := pyStrLe_antisymm h1 h2
      simp only [keysOf, List.map_cons, List.nodup_cons] at hnd
      exact hnd.1 (hk ▸ (by
        simp only [List.mem_map]
        exact ⟨b, hb1', rfl⟩))
    subst hab
    have hp' : l1.Perm l2 := hp.cons_inv
    have := sorted_keyNodup_eq l1 l2 hp' (List.sorted_cons.mp hs1).2
      (List.sorted_cons.mp hs2).2 (by
        simp only [keysOf, List.map_cons, List.nodup_cons] at hnd
        exact hnd.2)
    rw [this]

theorem wfElems_mem {xs : List Json} (h : wfElems xs = true) {x : Json}
    (hx : x ∈ xs) : wfJ x = true := by
  induction xs with
  | nil => simp at hx
  | cons y ys ih =>
    simp only [wfElems, Bool.and_eq_true] at h
    rcases List.mem_cons.mp hx with rfl | hx'
    · exact h.1
    · exact ih h.2 hx'

theorem wfEntries_mem {es : List (PyStr × Json)} (h : wfEntries es = true)
    {k : PyStr} {v : Json} (hv : (k, v) ∈ es) : wfJ v = true := by
  induction es with
  | nil => simp at hv
  | cons e es ih =>
    obtain ⟨k', v'⟩ := e
    simp only [wfEntries, Bool.and_eq_true] at h
    rcases List.mem_cons.mp hv with heq | hv'
    · injection heq with h1 h2
      subst h2
      exact h.1.2
    · exact ih h.2 hv'

theorem sizeOf_mem_arr {x : Json} {xs : List Json} (h : x ∈ xs) :
    sizeOf x < sizeOf (Json.arr xs) := by
  have := List.sizeOf_lt_of_mem h
  simp only [Json.arr.sizeOf_spec]
  omega

theorem sizeOf_mem_obj {k : PyStr} {v : Json} {es : List (PyStr × Json)}
    (h : (k, v) ∈ es) : sizeOf v < sizeOf (Json.obj es) := by
  have h1 := List.sizeOf_lt_of_mem h
  have h2 : sizeOf (k, v) = 1 + sizeOf k + sizeOf v := by simp
  simp only [Json.obj.sizeOf_spec]
  omega

theorem sortElems_iff_aux : ∀ (xs ys : List Json),
    (∀ x ∈ xs, ∀ y, wfJ x = true → wfJ y = true →
      (jeqb x y = true ↔ sortJson x = sortJson y)) →
    wfElems xs = true → wfElems ys = true →
    (jeqbElems xs ys = true ↔ sortElems xs = sortElems ys) := by
  intro xs
  induction xs with
  | nil =>
    intro ys _ _ _
    cases ys with
    | nil => simp [jeqbElems, sortElems]
    | cons y ys => simp [jeqbElems, sortElems]
  | cons x xs ih =>
    intro ys hpt hw1 hw2
    cases ys with
    | nil => simp [jeqbElems, sortElems]
    | cons y ys =>
      simp only [wfElems, Bool.and_eq_true] at hw1 hw2
      have hhead := hpt x (by simp) y hw1.1 hw2.1
      have htail := ih ys (fun x' hx' => hpt x' (by simp [hx'])) hw1.2 hw2.2
      simp only [jeqbElems, Bool.and_eq_true, sortElems, List.cons.injEq]
      rw [hhead, htail]

theorem jeqb_iff_sortJson : ∀ (n : Nat) (d1 d2 : Json), sizeOf d1 ≤ n →
    wfJ d1 = true → wfJ d2 = true →
    (jeqb d1 d2 = true ↔ sortJson d1 = sortJson d2) := by
  intro n
  induction n with
  | zero =>
    intro d1 d2 hsz _ _
    exfalso
    cases d1 <;> simp at hsz <;> omega
  | succ n ih =>
    intro d1 d2 hsz hw1 hw2
    cases d1 with
    | null => cases d2 <;> simp [jeqb, sortJson]
    | bool a => cases d2 <;> simp [jeqb, sortJson]
    | num a => cases d2 <;> simp [jeqb, sortJson]
    | str a => cases d2 <;> simp [jeqb, sortJson]
    | arr xs =>
      cases d2 with
      | arr ys =>
        simp only [wfJ] at hw1 hw2
        have hpt : ∀ x ∈ xs, ∀ y, wfJ x = true → wfJ y = true →
            (jeqb x y = true ↔ sortJson x = sortJson y) := by
          intro x hx y h1 h2
          have := sizeOf_mem_arr hx
          exact ih x y (by omega) h1 h2
        have := sortElems_iff_aux xs ys hpt hw1 hw2
        simpa [jeqb, sortJson] using this
      | null => simp [jeqb, sortJson]
      | bool b => simp [jeqb, sortJson]
      | num b => simp [jeqb, sortJson]
      | str b => simp [jeqb, sortJson]
      | obj fs => simp [jeqb, sortJson]
    | obj es =>
      cases d2 with
      | obj fs =>
        simp only [wfJ, Bool.and_eq_true] at hw1 hw2
        have hnd1 : (keysOf es).Nodup := (wfKeysDistinct_iff _).mp hw1.1
        have hnd2 : (keysOf fs).Nodup := (wfKeysDistinct_iff _).mp hw2.1
        have he1 := hw1.2
        have he2 := hw2.2
        have ihes : ∀ k v, (k, v) ∈ es → ∀ v2, wfJ v = true → wfJ v2 = true →
            (jeqb v v2 = true ↔ sortJson v = sortJson v2) := by
          intro k v hv v2 h1 h2
          have := sizeOf_mem_obj hv
          exact ih v v2 (by omega) h1 h2
        simp only [jeqb, sortJson, Bool.and_eq_true, beq_iff_eq, Json.obj.injEq]
        constructor
        · rintro ⟨hlen, hent⟩
          have hsub : ∀ p ∈ sortEntries es, p ∈ sortEntries fs := by
            rintro ⟨k, w⟩ hp
            rw [mem_sortEntries] at hp ⊢
            obtain ⟨v, hv, rfl⟩ := hp
            obtain ⟨v', hvl, hvv⟩ := jeqbEntries_forall hent k v hv
            have hv'mem := lookup_mem hvl
            refine ⟨v', hv'mem, ?_⟩
            exact (ihes k v hv v' (wfEntries_mem he1 hv)
              (wfEntries_mem he2 hv'mem)).mp hvv
          have hndp : (sortEntries es).Nodup := by
            have : (keysOf (sortEntries es)).Nodup := by
              rw [keysOf_sortEntries]; exact hnd1
            exact List.Nodup.of_map Prod.fst this
          have hlens : (sortEntries fs).length ≤ (sortEntries es).length := by
            rw [length_sortEntries, length_sortEntries]; omega
          have hperm : (sortEntries es).Perm (sortEntries fs) :=
            (List.Nodup.subperm hndp hsub).perm_of_length_le hlens
          apply sorted_keyNodup_eq
          · exact ((List.perm_insertionSort entryLe _).trans hperm).trans
              (List.perm_insertionSort entryLe _).symm
          · exact List.sorted_insertionSort entryLe _
          · exact List.sorted_insertionSort entryLe _
          · have hkp : (keysOf (List.insertionSort entryLe (sortEntries es))).Perm
                (keysOf (sortEntries es)) :=
              (List.perm_insertionSort entryLe _).map Prod.fst
            rw [keysOf_sortEntries] at hkp
            exact hkp.nodup_iff.mpr hnd1
        · intro hEq
          have hlha : (List.insertionSort entryLe (sortEntries es)).length
              = (List.insertionSort entryLe (sortEntries fs)).length := by
            rw [hEq]
          rw [(List.perm_insertionSort entryLe _).length_eq,
              (List.perm_insertionSort entryLe _).length_eq,
              length_sortEntries, length_sortEntries] at hlha
          refine ⟨hlha, jeqbEntries_build es fs ?_⟩
          intro k v hv
          have hm : (k, sortJson v) ∈ sortEntries es :=
            mem_sortEntries.mpr ⟨v, hv, rfl⟩
          have hm2 : (k, sortJson v) ∈ List.insertionSort entryLe (sortEntries es) :=
            (List.perm_insertionSort entryLe (sortEntries es)).mem_iff.mpr hm
          rw [hEq] at hm2
          have hm3 : (k, sortJson v) ∈ sortEntries fs :=
            (List.perm_insertionSort entryLe _).mem_iff.mp hm2
          obtain ⟨v', hv', hsv⟩ := mem_sortEntries.mp hm3
          refine ⟨v', mem_lookup hnd2 hv', ?_⟩
          exact (ihes k v hv v' (wfEntries_mem he1 hv)
            (wfEntries_mem he2 hv')).mpr hsv
      | null => simp [jeqb, sortJson]
      | bool b => simp [jeqb, sortJson]
      | num b => simp [jeqb, sortJson]
      | str b => simp [jeqb, sortJson]
      | arr ys => simp [jeqb, sortJson]

/-! ### Digest shape: 64 lowercase hexadecimal characters -/

theorem hexDigitChar_isLowerHex (d : Nat) (h : d < 16) :
    isLowerHex (hexDigitChar d) = true := by
  unfold hexDigitChar isLowerHex
  split <;> simp <;> omega

theorem hex4_shape (n : Nat) :
    (hex4 n).length = 4 ∧ (hex4 n).all isLowerHex = true := by
  refine ⟨rfl, ?_⟩
  have h1 := hexDigitChar_isLowerHex (n / 4096 % 16) (Nat.mod_lt _ (by omega))
  have h2 := hexDigitChar_isLowerHex (n / 256 % 16) (Nat.mod_lt _ (by omega))
  have h3 := hexDigitChar_isLowerHex (n / 16 % 16) (Nat.mod_lt _ (by omega))
  have h4 := hexDigitChar_isLowerHex (n % 16) (Nat.mod_lt _ (by omega))
  simp [hex4, h1, h2, h3, h4]

theorem wordHex8_shape (w : Nat) :
    (wordHex8 w).length = 8 ∧ (wordHex8 w).all isLowerHex = true := by
  obtain ⟨l1, a1⟩ := hex4_shape (w / 65536)
  obtain ⟨l2, a2⟩ := hex4_shape (w % 65536)
  constructor
  · simp [wordHex8, l1, l2]
  · simp only [wordHex8, List.all_append, a1, a2, Bool.and_self]

theorem shaRound_length (st : List Nat) (kw : Nat × Nat) :
    (shaRound st kw).length = st.length := by
  unfold shaRound
  split
  · simp_all
  · rfl

theorem foldl_shaRound_length : ∀ (l : List (Nat × Nat)) (st : List Nat),
    (l.foldl shaRound st).length = st.length := by
  intro l
  induction l with
  | nil => intro st; rfl
  | cons x l ih => intro st; rw [List.foldl_cons, ih, shaRound_length]

theorem shaChunk_length (h c : List Nat) : (shaChunk h c).length = h.length := by
  unfold shaChunk
  rw [List.length_zipWith, foldl_shaRound_length]
  omega

theorem foldl_shaChunk_length : ∀ (cs : List (List Nat)) (h : List Nat),
    (cs.foldl shaChunk h).length = h.length := by
  intro cs
  induction cs with
  | nil => intro h; rfl
  | cons c cs ih => intro h; rw [List.foldl_cons, ih, shaChunk_length]

theorem sha256words_length (msg : List Nat) : (sha256words msg).length = 8 := by
  unfold sha256words
  rw [foldl_shaChunk_length]
  rfl

theorem flatMap_wordHex8_shape : ∀ (ws : List Nat),
    (ws.flatMap wordHex8).length = 8 * ws.length
      ∧ (ws.flatMap wordHex8).all isLowerHex = true := by
  intro ws
  induction ws with
  | nil => simp
  | cons w ws ih =>
    obtain ⟨lw, aw⟩ := wordHex8_shape w
    constructor
    · rw [List.flatMap_cons, List.length_append, lw, ih.1, List.length_cons]
      ring
    · rw [List.flatMap_cons, List.all_append, aw, ih.2]
      rfl

theorem sha256hex_shape (msg : List Nat) :
    (sha256hex msg).length = 64 ∧ (sha256hex msg).all isLowerHex = true := by
  unfold sha256hex
  obtain ⟨hl, ha⟩ := flatMap_wordHex8_shape (sha256words msg)
  rw [sha256words_length] at hl
  exact ⟨hl, ha⟩

theorem matchesHashPattern_take {s : PyStr} (hlen : s.length = 64)
    (hall : s.all isLowerHex = true) {k : Nat} (h16 : 16 ≤ k) (h64 : k ≤ 64) :
    matchesHashPattern (s.take k) = true := by
  unfold matchesHashPattern
  have hl : (s.take k).length = k := by rw [List.length_take]; omega
  have ha : (s.take k).all isLowerHex = true := by
    rw [List.all_eq_true] at hall ⊢
    intro x hx
    exact hall x (List.mem_of_mem_take hx)
  simp only [hl, ha, Bool.and_eq_true, decide_eq_true_eq, Bool.and_true]
  omega

/-! ### The widening loop: characterization -/

theorem bucketGet_create_self (b : GcsBucket) (n : PyStr) (c : List Nat)
    (m : Option PyStr) : bucketGet (bucketCreate b n c m) n = some ⟨c, m⟩ := by
  simp [bucketGet, bucketCreate, List.lookup]

theorem bucketGet_create_other (b : GcsBucket) {n n' : PyStr} (c : List Nat)
    (m : Option PyStr) (h : n' ≠ n) :
    bucketGet (bucketCreate b n c m) n' = bucketGet b n' := by
  have hb : (n' == n) = false := by simpa using h
  simp [bucketGet, bucketCreate, List.lookup, hb]

theorem blobName_ne_of_length {s1 s2 : PyStr} (h : s1.length ≠ s2.length) :
    blobName s1 ≠ blobName s2 := by
  intro he
  have := congrArg List.length he
  simp only [blobName, List.length_append] at this
  omega

theorem genLoopF_absent {bucket : GcsBucket} {full : PyStr} {f k0 : Nat}
    (hget : bucketGet bucket (blobName (full.take k0)) = none) :
    genLoopF bucket full (f + 1) k0 = .ok (full, k0, true) := by
  simp [genLoopF, hget]

theorem genLoopF_match {bucket : GcsBucket} {full : PyStr} {f k0 : Nat}
    {blob : Blob} (hget : bucketGet bucket (blobName (full.take k0)) = some blob)
    (hm : blob.metadata = some full) :
    genLoopF bucket full (f + 1) k0 = .ok (full, k0, false) := by
  simp [genLoopF, hget, hm]

theorem genLoopF_collide {bucket : GcsBucket} {full : PyStr} {f k0 : Nat}
    {blob : Blob} (hget : bucketGet bucket (blobName (full.take k0)) = some blob)
    (hm : blob.metadata ≠ some full) :
    genLoopF bucket full (f + 1) k0 = genLoopF bucket full f (k0 + 1) := by
  simp [genLoopF, hget, hm]

theorem genLoopF_ok_full {bucket : GcsBucket} {full full' : PyStr} :
    ∀ (f k0 : Nat) {k : Nat} {tc : Bool},
    genLoopF bucket full f k0 = .ok (full', k, tc) →
    full' = full ∧ k0 ≤ k ∧ k < k0 + f := by
  intro f
  induction f with
  | zero => intro k0 k tc h; simp [genLoopF] at h
  | succ f ih =>
    intro k0 k tc h
    match hget : bucketGet bucket (blobName (full.take k0)) with
    | none =>
      rw [genLoopF_absent hget] at h
      injection h with h
      injection h with h1 h2
      injection h2 with h2 h3
      exact ⟨h1.symm, by omega, by omega⟩
    | some blob =>
      by_cases hm : blob.metadata = some full
      · rw [genLoopF_match hget hm] at h
        injection h with h
        injection h with h1 h2
        injection h2 with h2 h3
        exact ⟨h1.symm, by omega, by omega⟩
      · rw [genLoopF_collide hget hm] at h
        obtain ⟨g1, g2, g3⟩ := ih (k0 + 1) h
        exact ⟨g1, by omega, by omega⟩

theorem genLoopF_ok_true_absent {bucket : GcsBucket} {full full' : PyStr} :
    ∀ (f k0 : Nat) {k : Nat},
    genLoopF bucket full f k0 = .ok (full', k, true) →
    bucketGet bucket (blobName (full.take k)) = none := by
  intro f
  induction f with
  | zero => intro k0 k h; simp [genLoopF] at h
  | succ f ih =>
    intro k0 k h
    match hget : bucketGet bucket (blobName (full.take k0)) with
    | none =>
      rw [genLoopF_absent hget] at h
      injection h with h
      injection h with h1 h2
      injection h2 with h2 h3
      subst h2
      exact hget
    | some blob =>
      by_cases hm : blob.metadata = some full
      · rw [genLoopF_match hget hm] at h
        injection h with h
        injection h with h1 h2
        injection h2 with h2 h3
        exact absurd h3.symm (by simp)
      · rw [genLoopF_collide hget hm] at h
        exact ih (k0 + 1) h

theorem genLoopF_ok_false_present {bucket : GcsBucket} {full full' : PyStr} :
    ∀ (f k0 : Nat) {k : Nat},
    genLoopF bucket full f k0 = .ok (full', k, false) →
    ∃ blob, bucketGet bucket (blobName (full.take k)) = some blob
      ∧ blob.metadata = some full := by
  intro f
  induction f with
  | zero => intro k0 k h; simp [genLoopF] at h
  | succ f ih =>
    intro k0 k h
    match hget : bucketGet bucket (blobName (full.take k0)) with
    | none =>
      rw [genLoopF_absent hget] at h
      injection h with h
      injection h with h1 h2
      injection h2 with h2 h3
      exact absurd h3.symm (by simp)
    | some blob =>
      by_cases hm : blob.metadata = some full
      · rw [genLoopF_match hget hm] at h
        injection h with h
        injection h with h1 h2
        injection h2 with h2 h3
        subst h2
        exact ⟨blob, hget, hm⟩
      · rw [genLoopF_collide hget hm] at h
        exact ih (k0 + 1) h

theorem genLoopF_error_msg {bucket : GcsBucket} {full : PyStr} :
    ∀ (f k0 : Nat) {e : PyStr},
    genLoopF bucket full f k0 = .error e → e = hashExhaustMsg := by
  intro f
  induction f with
  | zero =>
    intro k0 e h
    simp [genLoopF] at h
    exact h.symm
  | succ f ih =>
    intro k0 e h
    match hget : bucketGet bucket (blobName (full.take k0)) with
    | none => rw [genLoopF_absent hget] at h; exact absurd h (by simp)
    | some blob =>
      by_cases hm : blob.metadata = some full
      · rw [genLoopF_match hget hm] at h; exact absurd h (by simp)
      · rw [genLoopF_collide hget hm] at h; exact ih (k0 + 1) h

theorem genLoopF_error_of_occ {bucket : GcsBucket} {full : PyStr} :
    ∀ (f k0 : Nat),
    (∀ j, k0 ≤ j → j < k0 + f → occNonMatch bucket full j = true) →
    genLoopF bucket full f k0 = .error hashExhaustMsg := by
  intro f
  induction f with
  | zero => intro k0 _; rfl
  | succ f ih =>
    intro k0 hocc
    have h0 := hocc k0 (le_refl _) (by omega)
    unfold occNonMatch at h0
    match hget : bucketGet bucket (blobName (full.take k0)) with
    | none => rw [hget] at h0; simp at h0
    | some blob =>
      rw [hget] at h0
      simp only [bne_iff_ne, ne_eq, decide_eq_true_eq] at h0
      rw [genLoopF_collide hget h0]
      exact ih (k0 + 1) (fun j h1 h2 => hocc j (by omega) (by omega))

theorem genLoopF_replay {bucket : GcsBucket} {full full' : PyStr}
    {content : List Nat} :
    ∀ (f k0 : Nat) {k : Nat}, k0 + f ≤ full.length + 1 →
    genLoopF bucket full f k0 = .ok (full', k, true) →
    genLoopF (bucketCreate bucket (blobName (full.take k)) content (some full))
      full f k0 = .ok (full, k, false) := by
  intro f
  induction f with
  | zero => intro k0 k _ h; simp [genLoopF] at h
  | succ f ih =>
    intro k0 k hbound h
    match hget : bucketGet bucket (blobName (full.take k0)) with
    | none =>
      rw [genLoopF_absent hget] at h
      injection h with h
      injection h with h1 h2
      injection h2 with h2 h3
      subst h2
      exact genLoopF_match (bucketGet_create_self _ _ _ _) rfl
    | some blob =>
      by_cases hm : blob.metadata = some full
      · rw [genLoopF_match hget hm] at h
        injection h with h
        injection h with h1 h2
        injection h2 with h2 h3
        exact absurd h3.symm (by simp)
      · rw [genLoopF_collide hget hm] at h
        obtain ⟨g1, g2, g3⟩ := genLoopF_ok_full f (k0 + 1) h
        have hkne : blobName (full.take k0) ≠ blobName (full.take k) := by
          apply blobName_ne_of_length
          rw [List.length_take, List.length_take]
          omega
        have hget' : bucketGet
            (bucketCreate bucket (blobName (full.take k)) content (some full))
            (blobName (full.take k0)) = some blob := by
          rw [bucketGet_create_other _ _ _ hkne, hget]
        rw [genLoopF_collide hget' hm]
        exact ih (k0 + 1) (by omega) h

/-! ### The claims -/

/-- Claim C1: the spec requires that after `delete(id)` succeeds a subsequent
`load(id)` returns NotFound, with any in-process read cache invalidated or
bypassed by delete.  The code violates this for every truthy document:
`delete_filter_file` never touches the `lru_cache` sitting on
`load_filter_file`, so whenever the deleted identifier's truthy document is
cached, the next `load` still serves it out of the cache (HTTP 200) instead
of NotFound.  (A cached falsy document — `null`, `false`, `0`, `""`, `[]`,
`{}` — is masked by the endpoint's `if not data:` check, which maps it to
404 anyway; the truthiness hypothesis pins the divergence down.) -/
theorem C1_delete_then_load_serves_stale_cache
    (bucket : GcsBucket) (cache : LoadCache) (hash_id : PyStr) (d : Json)
    (hval : matchesHashPattern hash_id = true)
    (htruthy : pyFalsy d = false)
    (hcached : cacheFind cache hash_id = some (some d))
    (hpresent : ∃ blob, bucketGet bucket (blobName hash_id) = some blob) :
    (delete_filter bucket hash_id).1 = ApiDelete.deleted
      ∧ (load_filter (delete_filter bucket hash_id).2 cache hash_id).1
          = ApiLoad.ok d := by
  obtain ⟨blob, hblob⟩ := hpresent
  have hdel : delete_filter bucket hash_id
      = (ApiDelete.deleted, bucketRemove bucket (blobName hash_id)) := by
    simp [delete_filter, validate_hash_id, hval, delete_filter_file, hblob]
  refine ⟨by rw [hdel], ?_⟩
  rw [hdel]
  simp [load_filter, validate_hash_id, hval, load_filter_file, hcached, htruthy]

/-- Witness for C1 at a concrete state: the truthy record `c1Doc` under
sixteen `a`s, already cached; its delete succeeds, yet the next load
returns the document. -/
theorem C1_delete_then_load_serves_stale_cache_witness :
    (matchesHashPattern c1Id = true
      ∧ pyFalsy c1Doc = false
      ∧ cacheFind c1Cache c1Id = some (some c1Doc)
      ∧ bucketGet c1Bucket (blobName c1Id)
          = some ⟨utf8Encode (dumpsDefault c1Doc), some aFull⟩)
    ∧ ((delete_filter c1Bucket c1Id).1 = ApiDelete.deleted
      ∧ (load_filter (delete_filter c1Bucket c1Id).2 c1Cache c1Id).1
          = ApiLoad.ok c1Doc) :=
  ⟨⟨by decide, by rfl, by rfl, by rfl⟩,
    C1_delete_then_load_serves_stale_cache c1Bucket c1Cache c1Id c1Doc
      (by decide) (by rfl) (by rfl)
      ⟨⟨utf8Encode (dumpsDefault c1Doc), some aFull⟩, by rfl⟩⟩

/-- Claim C2 (amended): in the sequential model — no concurrent writer
between allocation and upload — whenever `save` returns an identifier for a
record it just created, the record stored under that identifier holds
`json.dumps(document)` (default separators, insertion order) with the
document's full canonical digest as metadata.  Both deviations from the
original claim are exhibited by the counterexample: the spec's
re-check-after-lost-race branch is absent from the code
(`save_filter_file` swallows `PreconditionFailed` without re-checking), and
the stored bytes are not the canonical (sorted, compact) serialization the
digest is computed over. -/
theorem C2_created_record_matches
    (bucket b' : GcsBucket) (D : Json) (hashFn : List Nat → PyStr) (id : PyStr)
    (h : save_filter bucket D hashFn = .ok (id, b'))
    (hfresh : bucketGet bucket (blobName id) = none) :
    bucketGet b' (blobName id)
      = some ⟨utf8Encode (dumpsDefault D),
          some (hashFn (utf8Encode (dumpsCanonical D)))⟩ := by
  simp only [save_filter] at h
  split at h
  · exact absurd h (by simp)
  · rename_i full k tc heq
    simp only [generate_unique_hash] at heq
    obtain ⟨hfull, hk1, hk2⟩ := genLoopF_ok_full _ _ heq
    subst hfull
    cases tc with
    | false =>
      simp only [if_false, Bool.false_eq_true, if_neg, Except.ok.injEq,
        Prod.mk.injEq] at h
      obtain ⟨h1, h2⟩ := h
      subst h1
      subst h2
      obtain ⟨blob, hb, -⟩ := genLoopF_ok_false_present _ _ heq
      rw [hfresh] at hb
      exact absurd hb (by simp)
    | true =>
      simp only [if_true, Except.ok.injEq, Prod.mk.injEq] at h
      obtain ⟨h1, h2⟩ := h
      subst h1
      subst h2
      simp only [save_filter_file, hfresh]
      exact bucketGet_create_self _ _ _ _

/-- Witness for C2 at a concrete state: saving `null` with a stub digest
into an empty bucket stores the serialized bytes with the full digest. -/
theorem C2_created_record_matches_witness :
    (save_filter ⟨[]⟩ Json.null (fun _ => aFull) = .ok (aFull.take 16, aBucket)
      ∧ bucketGet (⟨[]⟩ : GcsBucket) (blobName (aFull.take 16)) = none)
    ∧ bucketGet aBucket (blobName (aFull.take 16))
        = some ⟨utf8Encode (dumpsDefault Json.null),
            some ((fun _ => aFull) (utf8Encode (dumpsCanonical Json.null)))⟩ :=
  ⟨⟨by rfl, by rfl⟩,
    C2_created_record_matches ⟨[]⟩ aBucket Json.null (fun _ => aFull)
      (aFull.take 16) (by rfl) (by rfl)⟩

/-- Counterexample for C2, refuting both clauses of the original claim.
First, the re-check-after-lost-race branch: on the pre-race (empty) bucket
the allocator decides to create at length 16; a concurrent writer then
stores different content with digest `"b"` under that very identifier; the
swallowed `PreconditionFailed` makes `save_filter_file` return with the
bucket unchanged — no re-check happens — so the raced save returns
`aFull[:16]` while the record stored under it carries the digest `"b"`, not
the document's digest `aFull`.  Second, the canonical-bytes clause: even an
unraced save of the out-of-order object `baDoc` stores `json.dumps(data)` —
insertion-ordered, space-separated — which differs from the canonical
(sorted, compact) bytes the digest was computed over. -/
theorem C2_counterexample :
    (genLoopF (⟨[]⟩ : GcsBucket) aFull 49 16 = .ok (aFull, 16, true)
      ∧ save_filter_file racedBucket aFull 16 Json.null = racedBucket
      ∧ (bucketGet racedBucket (blobName (aFull.take 16))).map Blob.metadata
          = some (some [98])
      ∧ (some [98] : Option PyStr) ≠ some aFull)
      ∧ (save_filter ⟨[]⟩ baDoc (fun _ => aFull) = .ok (aFull.take 16, baBucket)
        ∧ (bucketGet baBucket (blobName (aFull.take 16))).map Blob.content
            = some (utf8Encode (dumpsDefault baDoc))
        ∧ utf8Encode (dumpsDefault baDoc) ≠ utf8Encode (dumpsCanonical baDoc)) := by
  refine ⟨⟨by rfl, by rfl, by rfl, by decide⟩, by rfl, by rfl, by decide⟩

/-- Claim C3: dedup idempotence.  If `save(D)` completes returning an
identifier, calling `save(D)` again on the resulting state returns the very
same identifier with the backend unchanged (no second write): the second
call's allocator takes the metadata-match branch and reports
`is_new = False`. -/
theorem C3_save_idempotent
    (bucket b1 : GcsBucket) (D : Json) (hashFn : List Nat → PyStr) (id : PyStr)
    (hlen : (hashFn (utf8Encode (dumpsCanonical D))).length = 64)
    (h : save_filter bucket D hashFn = .ok (id, b1)) :
    save_filter b1 D hashFn = .ok (id, b1)
      ∧ ∃ k, id = (hashFn (utf8Encode (dumpsCanonical D))).take k
        ∧ generate_unique_hash b1 D hashFn 16 64
            = .ok (hashFn (utf8Encode (dumpsCanonical D)), k, false) := by
  simp only [save_filter] at h
  split at h
  · exact absurd h (by simp)
  · rename_i full k tc heq
    simp only [generate_unique_hash] at heq
    obtain ⟨hfull, hk1, hk2⟩ := genLoopF_ok_full _ _ heq
    subst hfull
    cases tc with
    | false =>
      simp only [if_false, Bool.false_eq_true, if_neg, Except.ok.injEq,
        Prod.mk.injEq] at h
      obtain ⟨h1, h2⟩ := h
      subst h1
      subst h2
      have hgen : generate_unique_hash bucket D hashFn 16 64
          = .ok (hashFn (utf8Encode (dumpsCanonical D)), k, false) := by
        simp only [generate_unique_hash]
        exact heq
      refine ⟨?_, k, rfl, hgen⟩
      simp only [save_filter, hgen]
      simp
    | true =>
      simp only [if_true, Except.ok.injEq, Prod.mk.injEq] at h
      obtain ⟨h1, h2⟩ := h
      subst h1
      subst h2
      have habs := genLoopF_ok_true_absent _ _ heq
      have hrep := @genLoopF_replay bucket _ _ (utf8Encode (dumpsDefault D))
        (64 + 1 - 16) 16 _ (by omega) heq
      have hb1 : save_filter_file bucket (hashFn (utf8Encode (dumpsCanonical D)))
          k D = bucketCreate bucket
            (blobName ((hashFn (utf8Encode (dumpsCanonical D))).take k))
            (utf8Encode (dumpsDefault D))
            (some (hashFn (utf8Encode (dumpsCanonical D)))) := by
        simp only [save_filter_file, habs]
      have hgen : generate_unique_hash
          (save_filter_file bucket (hashFn (utf8Encode (dumpsCanonical D))) k D)
          D hashFn 16 64
          = .ok (hashFn (utf8Encode (dumpsCanonical D)), k, false) := by
        simp only [generate_unique_hash, hb1]
        exact hrep
      refine ⟨?_, k, rfl, hgen⟩
      simp only [save_filter, hgen]
      simp

/-- Witness for C3 at a concrete state: saving `null` twice with a stub
digest, starting from the empty bucket. -/
theorem C3_save_idempotent_witness :
    (((fun _ => aFull) (utf8Encode (dumpsCanonical Json.null))).length = 64
      ∧ save_filter ⟨[]⟩ Json.null (fun _ => aFull)
          = .ok (aFull.take 16, aBucket))
    ∧ (save_filter aBucket Json.null (fun _ => aFull)
          = .ok (aFull.take 16, aBucket)
      ∧ ∃ k, aFull.take 16
            = ((fun _ => aFull) (utf8Encode (dumpsCanonical Json.null))).take k
        ∧ generate_unique_hash aBucket Json.null (fun _ => aFull) 16 64
            = .ok ((fun _ => aFull) (utf8Encode (dumpsCanonical Json.null)),
                k, false)) :=
  ⟨⟨by decide, by rfl⟩,
    C3_save_idempotent ⟨[]⟩ aBucket Json.null (fun _ => aFull)
      (aFull.take 16) (by decide) (by rfl)⟩

/-- Claim C4 (amended): the round trip `load(save(D).identifier) == D` holds
for well-formed, truthy documents provided the identifier was not already
allocated and the read cache holds no entry for it.  Unconditionally — as
the spec states it — the claim fails in two independent ways, both shown by
the counterexample: a stale cached `None` for the identifier makes the load
after a successful save return NotFound, and a falsy document (`null`,
`false`, `0`, `""`, `[]`, `{}`) is mapped to 404 by the endpoint's
`if not data:` check even with a fresh cache and a fresh identifier. -/
theorem C4_round_trip
    (bucket b' : GcsBucket) (cache : LoadCache) (D : Json) (id : PyStr)
    (hwf : wfJ D = true) (htruthy : pyFalsy D = false)
    (h : save_filter bucket D sha256Digest = .ok (id, b'))
    (hfresh : bucketGet bucket (blobName id) = none)
    (hcache : cacheFind cache id = none) :
    (load_filter b' cache id).1 = ApiLoad.ok D := by
  simp only [save_filter] at h
  split at h
  · exact absurd h (by simp)
  · rename_i full k tc heq
    simp only [generate_unique_hash] at heq
    obtain ⟨hfull, hk1, hk2⟩ := genLoopF_ok_full _ _ heq
    subst hfull
    cases tc with
    | false =>
      simp only [if_false, Bool.false_eq_true, if_neg, Except.ok.injEq,
        Prod.mk.injEq] at h
      obtain ⟨h1, h2⟩ := h
      subst h1
      subst h2
      obtain ⟨blob, hb, -⟩ := genLoopF_ok_false_present _ _ heq
      rw [hfresh] at hb
      exact absurd hb (by simp)
    | true =>
      simp only [if_true, Except.ok.injEq, Prod.mk.injEq] at h
      obtain ⟨h1, h2⟩ := h
      subst h1
      subst h2
      have hshape := sha256hex_shape (utf8Encode (dumpsCanonical D))
      have hm : matchesHashPattern
          ((sha256Digest (utf8Encode (dumpsCanonical D))).take k) = true :=
        matchesHashPattern_take hshape.1 hshape.2 hk1 (by omega)
      have hload : loads (utf8Encode (dumpsDefault D)) = some D :=
        loads_dumps [32] [32] D (by decide) (by decide) hwf
      have hb' : save_filter_file bucket
          (sha256Digest (utf8Encode (dumpsCanonical D))) k D
          = bucketCreate bucket
              (blobName ((sha256Digest (utf8Encode (dumpsCanonical D))).take k))
              (utf8Encode (dumpsDefault D))
              (some (sha256Digest (utf8Encode (dumpsCanonical D)))) := by
        simp only [save_filter_file, hfresh]
      rw [hb']
      simp [load_filter, validate_hash_id, hm, load_filter_file, hcache,
        bucketGet_create_self, hload, htruthy]

/-- Witness for C4 at a concrete state: saving the truthy `objDoc` into an
empty bucket with an empty cache round-trips. -/
theorem C4_round_trip_witness :
    (wfJ objDoc = true ∧ pyFalsy objDoc = false
      ∧ save_filter ⟨[]⟩ objDoc sha256Digest
          = .ok (objSha.take 16, objBucket)
      ∧ bucketGet (⟨[]⟩ : GcsBucket) (blobName (objSha.take 16)) = none
      ∧ cacheFind emptyCache (objSha.take 16) = none)
    ∧ (load_filter objBucket emptyCache (objSha.take 16)).1
        = ApiLoad.ok objDoc :=
  ⟨⟨by decide, by decide, by rfl, by rfl, by rfl⟩,
    C4_round_trip ⟨[]⟩ objBucket emptyCache objDoc (objSha.take 16)
      (by decide) (by decide) (by rfl) (by rfl) (by rfl)⟩

/-- Counterexample for C4 as stated unconditionally by the spec, in both of
its failure modes.  First: a stale cached `None` for the identifier (a
`load` that ran before the record existed) makes the load following a
successful save of the truthy `objDoc` return NotFound instead of the
document.  Second: for the falsy document `null`, even a fresh cache and a
fresh identifier cannot save the round trip — `json.loads(b"null")` is
`None`, so the endpoint's `if not data:` check returns 404. -/
theorem C4_counterexample :
    (save_filter ⟨[]⟩ objDoc sha256Digest = .ok (objSha.take 16, objBucket)
      ∧ (load_filter objBucket poisonedCache (objSha.take 16)).1
          = ApiLoad.notFound)
      ∧ (save_filter ⟨[]⟩ Json.null sha256Digest
            = .ok (nullSha.take 16, nullBucket)
        ∧ (load_filter nullBucket emptyCache (nullSha.take 16)).1
            = ApiLoad.notFound) :=
  ⟨⟨by rfl, by rfl⟩, ⟨by rfl, by rfl⟩⟩

/-- Claim C5: collision widening.  For two distinct documents whose digests
(under the test stub `hash_func`) share a 16-character prefix, saving both
sequentially from an empty bucket produces two distinct identifiers — the
first of length 16 and the second of length 17, one widening step per
verified truncation collision — and both remain independently loadable. -/
theorem C5_collision_widening
    (D1 D2 : Json) (hashFn : List Nat → PyStr) (h1 h2 : PyStr)
    (hw1 : wfJ D1 = true) (hw2 : wfJ D2 = true)
    (hh1 : hashFn (utf8Encode (dumpsCanonical D1)) = h1)
    (hh2 : hashFn (utf8Encode (dumpsCanonical D2)) = h2)
    (hl1 : h1.length = 64) (hl2 : h2.length = 64)
    (hpre : h1.take 16 = h2.take 16) (hne : h1 ≠ h2) :
    ∃ b1 b2,
      save_filter ⟨[]⟩ D1 hashFn = .ok (h1.take 16, b1)
      ∧ save_filter b1 D2 hashFn = .ok (h2.take 17, b2)
      ∧ h1.take 16 ≠ h2.take 17
      ∧ (load_filter_file b2 emptyCache (h1.take 16)).1 = some (some D1)
      ∧ (load_filter_file b2 emptyCache (h2.take 17)).1 = some (some D2) := by
  have e1 : bucketGet (⟨[]⟩ : GcsBucket) (blobName (h1.take 16)) = none := rfl
  have hgen1 : generate_unique_hash ⟨[]⟩ D1 hashFn 16 64 = .ok (h1, 16, true) := by
    simp only [generate_unique_hash, hh1]
    exact genLoopF_absent e1
  refine ⟨bucketCreate ⟨[]⟩ (blobName (h1.take 16))
      (utf8Encode (dumpsDefault D1)) (some h1),
    bucketCreate (bucketCreate ⟨[]⟩ (blobName (h1.take 16))
        (utf8Encode (dumpsDefault D1)) (some h1)) (blobName (h2.take 17))
      (utf8Encode (dumpsDefault D2)) (some h2), ?_, ?_, ?_, ?_, ?_⟩
  · simp only [save_filter, hgen1, if_true, save_filter_file, e1]
  · have e2 : bucketGet (bucketCreate ⟨[]⟩ (blobName (h1.take 16))
        (utf8Encode (dumpsDefault D1)) (some h1)) (blobName (h2.take 16))
        = some ⟨utf8Encode (dumpsDefault D1), some h1⟩ := by
      rw [← hpre]
      exact bucketGet_create_self _ _ _ _
    have hmne : (⟨utf8Encode (dumpsDefault D1), some h1⟩ : Blob).metadata
        ≠ some h2 := fun hc => hne (Option.some.inj hc)
    have hname : blobName (h2.take 17) ≠ blobName (h1.take 16) := by
      apply blobName_ne_of_length
      rw [List.length_take, List.length_take, hl1, hl2]
      omega
    have e3 : bucketGet (bucketCreate ⟨[]⟩ (blobName (h1.take 16))
        (utf8Encode (dumpsDefault D1)) (some h1)) (blobName (h2.take 17))
        = none := by
      rw [bucketGet_create_other _ _ _ hname]
      rfl
    have hgen2 : generate_unique_hash (bucketCreate ⟨[]⟩ (blobName (h1.take 16))
        (utf8Encode (dumpsDefault D1)) (some h1)) D2 hashFn 16 64
        = .ok (h2, 17, true) := by
      simp only [generate_unique_hash, hh2]
      exact (genLoopF_collide e2 hmne).trans (genLoopF_absent e3)
    simp only [save_filter, hgen2, if_true, save_filter_file, e3]
  · intro he
    have := congrArg List.length he
    rw [List.length_take, List.length_take, hl1, hl2] at this
    omega
  · have hname : blobName (h1.take 16) ≠ blobName (h2.take 17) := by
      apply blobName_ne_of_length
      rw [List.length_take, List.length_take, hl1, hl2]
      omega
    have hget : bucketGet (bucketCreate (bucketCreate ⟨[]⟩
        (blobName (h1.take 16)) (utf8Encode (dumpsDefault D1)) (some h1))
        (blobName (h2.take 17)) (utf8Encode (dumpsDefault D2)) (some h2))
        (blobName (h1.take 16))
        = some ⟨utf8Encode (dumpsDefault D1), some h1⟩ := by
      rw [bucketGet_create_other _ _ _ hname]
      exact bucketGet_create_self _ _ _ _
    have hload : loads (utf8Encode (dumpsDefault D1)) = some D1 :=
      loads_dumps [32] [32] D1 (by decide) (by decide) hw1
    simp [load_filter_file, cacheFind, emptyCache, List.lookup, hget, hload]
  · have hget := bucketGet_create_self (bucketCreate ⟨[]⟩
      (blobName (h1.take 16)) (utf8Encode (dumpsDefault D1)) (some h1))
      (blobName (h2.take 17)) (utf8Encode (dumpsDefault D2)) (some h2)
    have hload : loads (utf8Encode (dumpsDefault D2)) = some D2 :=
      loads_dumps [32] [32] D2 (by decide) (by decide) hw2
    simp [load_filter_file, cacheFind, emptyCache, List.lookup, hget, hload]

/-- Witness for C5 at a concrete pair: `null` and `7` under a stub digest
mapping them to 64-character strings agreeing on the first 63 characters. -/
theorem C5_collision_widening_witness :
    (wfJ Json.null = true ∧ wfJ (Json.num 7) = true
      ∧ (fun bs => if List.length bs == 4 then aFull else bFull)
          (utf8Encode (dumpsCanonical Json.null)) = aFull
      ∧ (fun bs => if List.length bs == 4 then aFull else bFull)
          (utf8Encode (dumpsCanonical (Json.num 7))) = bFull
      ∧ aFull.length = 64 ∧ bFull.length = 64
      ∧ aFull.take 16 = bFull.take 16 ∧ aFull ≠ bFull)
    ∧ ∃ b1 b2,
      save_filter ⟨[]⟩ Json.null
          (fun bs => if List.length bs == 4 then aFull else bFull)
        = .ok (aFull.take 16, b1)
      ∧ save_filter b1 (Json.num 7)
          (fun bs => if List.length bs == 4 then aFull else bFull)
        = .ok (bFull.take 17, b2)
      ∧ aFull.take 16 ≠ bFull.take 17
      ∧ (load_filter_file b2 emptyCache (aFull.take 16)).1 = some (some Json.null)
      ∧ (load_filter_file b2 emptyCache (bFull.take 17)).1
          = some (some (Json.num 7)) :=
  ⟨⟨by decide, by decide, by decide, by decide, by decide, by decide,
      by decide, by decide⟩,
    C5_collision_widening Json.null (Json.num 7)
      (fun bs => if List.length bs == 4 then aFull else bFull) aFull bFull
      (by decide) (by decide) (by decide) (by decide) (by decide) (by decide)
      (by decide) (by decide)⟩

/-- Claim C6: canonicalization is a deterministic function of the document
value — in this pure model trivially so — and deeply equal documents
(Python `==`, including objects whose keys were inserted in different
orders) have identical canonical bytes and hence identical SHA-256
digests. -/
theorem C6_canonicalization_equality_preserving (d1 d2 : Json)
    (hw1 : wfJ d1 = true) (hw2 : wfJ d2 = true) (heq : jeqb d1 d2 = true) :
    dumpsCanonical d1 = dumpsCanonical d2
      ∧ sha256Digest (utf8Encode (dumpsCanonical d1))
          = sha256Digest (utf8Encode (dumpsCanonical d2)) := by
  have hs := (jeqb_iff_sortJson (sizeOf d1) d1 d2 (le_refl _) hw1 hw2).mp heq
  have hd : dumpsCanonical d1 = dumpsCanonical d2 := by
    unfold dumpsCanonical
    rw [hs]
  exact ⟨hd, by rw [hd]⟩

/-- Witness for C6 at a concrete pair: the same two-key object with its keys
in the two insertion orders. -/
theorem C6_canonicalization_equality_preserving_witness :
    (wfJ (Json.obj [([97], Json.num 1), ([98], Json.num 2)]) = true
      ∧ wfJ (Json.obj [([98], Json.num 2), ([97], Json.num 1)]) = true
      ∧ jeqb (Json.obj [([97], Json.num 1), ([98], Json.num 2)])
          (Json.obj [([98], Json.num 2), ([97], Json.num 1)]) = true)
    ∧ (dumpsCanonical (Json.obj [([97], Json.num 1), ([98], Json.num 2)])
        = dumpsCanonical (Json.obj [([98], Json.num 2), ([97], Json.num 1)])
      ∧ sha256Digest (utf8Encode (dumpsCanonical
            (Json.obj [([97], Json.num 1), ([98], Json.num 2)])))
        = sha256Digest (utf8Encode (dumpsCanonical
            (Json.obj [([98], Json.num 2), ([97], Json.num 1)])))) :=
  ⟨⟨by decide, by decide, by decide⟩,
    C6_canonicalization_equality_preserving
      (Json.obj [([97], Json.num 1), ([98], Json.num 2)])
      (Json.obj [([98], Json.num 2), ([97], Json.num 1)])
      (by decide) (by decide) (by decide)⟩

/-- Claim C7 (amended): when every candidate prefix length 16..64 is
occupied by a blob carrying a different stored digest, the allocator fails
with the fatal `RuntimeError` — never returning an identifier and never
silently retrying.  Contrary to the spec, the reported error is the fixed
message "Hash collision could not be resolved within max_length", which
carries no candidate prefixes (see the counterexample). -/
theorem C7_exhaustion_fixed_message
    (bucket : GcsBucket) (D : Json) (hashFn : List Nat → PyStr)
    (hocc : ((List.range 49).all fun i =>
        occNonMatch bucket (hashFn (utf8Encode (dumpsCanonical D)))
          (16 + i)) = true) :
    generate_unique_hash bucket D hashFn 16 64 = .error hashExhaustMsg := by
  rw [List.all_eq_true] at hocc
  simp only [generate_unique_hash]
  apply genLoopF_error_of_occ
  intro j hj1 hj2
  have hj : j - 16 ∈ List.range 49 := by
    rw [List.mem_range]
    omega
  have hocc' := hocc _ hj
  simp only at hocc'
  have he : 16 + (j - 16) = j := by omega
  rw [he] at hocc'
  exact hocc'

/-- Witness for C7 at a concrete state: every candidate of the stub digest
`aFull` occupied by a blob with digest `"b"`. -/
theorem C7_exhaustion_fixed_message_witness :
    ((List.range 49).all fun i =>
        occNonMatch c7Bucket ((fun _ => aFull)
          (utf8Encode (dumpsCanonical Json.null))) (16 + i)) = true
    ∧ generate_unique_hash c7Bucket Json.null (fun _ => aFull) 16 64
        = .error hashExhaustMsg :=
  ⟨by decide,
    C7_exhaustion_fixed_message c7Bucket Json.null (fun _ => aFull) (by decide)⟩

/-- Counterexample for C7's "the reported error includes the candidate
prefixes tried": with every candidate occupied, the raised error is the
constant message, which does not contain the candidate tried first (nor,
being constant, any other). -/
theorem C7_counterexample :
    generate_unique_hash c7Bucket Json.null (fun _ => aFull) 16 64
        = .error hashExhaustMsg
      ∧ containsSeq (aFull.take 16) hashExhaustMsg = false :=
  ⟨by rfl, by decide⟩

/-- Claim C8: identifiers failing `HASH_PATTERN` are rejected by
`validate_hash_id` (HTTP 422, a caller error) before any storage operation:
both endpoints return the validation failure — never NotFound, never an
internal error — and leave the backend state and the read cache
untouched. -/
theorem C8_invalid_id_rejected_before_storage
    (bucket : GcsBucket) (cache : LoadCache) (hash_id : PyStr)
    (hbad : matchesHashPattern hash_id = false) :
    load_filter bucket cache hash_id = (ApiLoad.invalidHash, cache)
      ∧ delete_filter bucket hash_id = (ApiDelete.invalidHash, bucket) := by
  constructor
  · simp [load_filter, validate_hash_id, hbad]
  · simp [delete_filter, validate_hash_id, hbad]

/-- Witness for C8 at a concrete malformed identifier `"zz"`. -/
theorem C8_invalid_id_rejected_before_storage_witness :
    matchesHashPattern [122, 122] = false
      ∧ (load_filter ⟨[]⟩ emptyCache [122, 122] = (ApiLoad.invalidHash, emptyCache)
      ∧ delete_filter ⟨[]⟩ [122, 122] = (ApiDelete.invalidHash, ⟨[]⟩)) :=
  ⟨by decide,
    C8_invalid_id_rejected_before_storage ⟨[]⟩ emptyCache [122, 122] (by decide)⟩

/-- Claim C10: every identifier a successful save returns is a prefix of
length 16..64 of the 64-character lowercase-hex SHA-256 digest of the
canonical document, hence matches `HASH_PATTERN` and passes
`validate_hash_id` — it is never rejected as malformed when passed back. -/
theorem C10_save_id_matches_pattern
    (bucket b' : GcsBucket) (D : Json) (id : PyStr)
    (h : save_filter bucket D sha256Digest = .ok (id, b')) :
    (∃ k, 16 ≤ k ∧ k ≤ 64
        ∧ id = (sha256Digest (utf8Encode (dumpsCanonical D))).take k)
      ∧ matchesHashPattern id = true ∧ validate_hash_id id = some id := by
  simp only [save_filter] at h
  split at h
  · exact absurd h (by simp)
  · rename_i full k tc heq
    simp only [generate_unique_hash] at heq
    obtain ⟨hfull, hk1, hk2⟩ := genLoopF_ok_full _ _ heq
    subst hfull
    have hid : id = (sha256Digest (utf8Encode (dumpsCanonical D))).take k := by
      cases tc with
      | false =>
        simp only [if_false, Bool.false_eq_true, if_neg, Except.ok.injEq,
          Prod.mk.injEq] at h
        exact h.1.symm
      | true =>
        simp only [if_true, Except.ok.injEq, Prod.mk.injEq] at h
        exact h.1.symm
    have hshape := sha256hex_shape (utf8Encode (dumpsCanonical D))
    have hm : matchesHashPattern id = true := by
      rw [hid]
      exact matchesHashPattern_take hshape.1 hshape.2 hk1 (by omega)
    refine ⟨⟨k, hk1, by omega, hid⟩, hm, ?_⟩
    simp [validate_hash_id, hm]

/-- Witness for C10 at a concrete save: `null` into an empty bucket. -/
theorem C10_save_id_matches_pattern_witness :
    save_filter ⟨[]⟩ Json.null sha256Digest = .ok (nullSha.take 16, nullBucket)
      ∧ ((∃ k, 16 ≤ k ∧ k ≤ 64
          ∧ nullSha.take 16
              = (sha256Digest (utf8Encode (dumpsCanonical Json.null))).take k)
        ∧ matchesHashPattern (nullSha.take 16) = true
        ∧ validate_hash_id (nullSha.take 16) = some (nullSha.take 16)) :=
  ⟨by rfl,
    C10_save_id_matches_pattern ⟨[]⟩ nullBucket Json.null (nullSha.take 16)
      (by rfl)⟩

/-- Claim C9: the claim asserts the conditional create is atomic with
respect to concurrent callers in both backends.  The local-filesystem
backend refutes it: its "conditional create" is a non-atomic
check-then-write — `generate_unique_hash` checks existence via
`read_file_content`, and `save_filter_file` later writes with a plain
`open(path, "w")` that has no exclusive-create flag.  This theorem replays
the interleaving: from the same empty directory, two concurrent callers
with different documents whose stub digests share a 16-character prefix
both see the candidate absent and are both told to create the same
identifier; executing the two unconditional writes then leaves only the
second writer's content — the first caller's committed record is silently
truncated and overwritten instead of the second create surfacing
`AlreadyExists` and widening.  Under an atomic conditional create the two
callers could not both have won the same key. -/
theorem C9_local_conditional_create_not_atomic :
    FilterApi.generate_unique_hash ⟨[]⟩ (Json.num 1)
        (fun bs => if bs == [49] then aFull else bFull) 16 64
      = .ok (aFull.take 16, true)
    ∧ FilterApi.generate_unique_hash ⟨[]⟩ (Json.num 2)
        (fun bs => if bs == [49] then aFull else bFull) 16 64
      = .ok (aFull.take 16, true)
    ∧ FilterApi.save_filter_file
        (FilterApi.save_filter_file ⟨[]⟩ (aFull.take 16) (Json.num 1))
        (aFull.take 16) (Json.num 2)
      = FilterApi.save_filter_file ⟨[]⟩ (aFull.take 16) (Json.num 2)
    ∧ FilterApi.read_file_content
        (FilterApi.save_filter_file
          (FilterApi.save_filter_file ⟨[]⟩ (aFull.take 16) (Json.num 1))
          (aFull.take 16) (Json.num 2)) (aFull.take 16)
      = some (locDumps 0 (Json.num 2))
    ∧ locDumps 0 (Json.num 2) ≠ locDumps 0 (Json.num 1) :=
  ⟨by rfl, by rfl, by rfl, by rfl, by decide⟩
